import Mathlib

/-!
Verification of the XBRL extraction-and-normalization core of the
railway_dsdgen repository, as a shallow embedding in Lean.

The embedding covers:
* the value normalizer of app/foundation/xbrl_parser/xbrl_parser.py
  (format_number_with_decimals, decimals_to_unit_label,
  extract_year_from_context),
* the tag extractor get_xbrl_tags of the same file,
* the document locator find_xbrl_files of the same file,
* the upsert engine insert_dsd_source_bulk of
  app/domain/repository/xbrl_parser_repository.py, with the database
  modelled as an explicit list of rows and database errors modelled by an
  error oracle.

Machine floats of the Python source are modelled as binary64 values: a
float literal is first parsed exactly as an integer mantissa over a power
of ten (DecFloat) and then rounded to 53 significant bits, round to
nearest with ties to even (roundB64).  A binary64 value is kept exactly
as an integer mantissa times a power of two (B64); the division by a
power of ten performed by the normalizer rounds the exact quotient once
to 53 bits, which equals the machine division because the divisors 10 ^ k
reachable from a parsed decimals attribute are themselves exactly
representable.  The float literal grammar is modelled for finite decimal
literals (sign, digits, optional fractional part, optional exponent);
whitespace or underscores inside literals, infinity and NaN spellings,
overflow to infinity and the subnormal range are outside the model.
-/

/-! ## String and number helpers shared by several components -/

/-- Numeric value of a list of ASCII digit characters, most significant
first, as computed by the Python int constructor. -/
def digitsVal (cs : List Char) : Nat :=
  cs.foldl (fun a c => 10 * a + (c.toNat - '0'.toNat)) 0

/-- Parse a nonempty all-digit character list; otherwise none. -/
def digitsOpt (cs : List Char) : Option Nat :=
  if cs ≠ [] ∧ cs.all Char.isDigit then some (digitsVal cs) else none

/-- Model of the Python test year_str.isdigit(): nonempty and all digits
(restricted to ASCII digits). -/
def pyIsdigit (s : String) : Bool :=
  decide (s.data ≠ []) && s.data.all Char.isDigit

/-- Model of the Python int constructor on strings: optional sign followed
by at least one digit; anything else is a ValueError, modelled as none. -/
def pyInt (s : String) : Option Int :=
  let cs := s.data
  let neg := cs.head? = some '-'
  let body := if cs.head? = some '-' ∨ cs.head? = some '+' then cs.tail else cs
  (digitsOpt body).map (fun n => if neg then -(n : Int) else (n : Int))

/-- Split a character list at the first character satisfying p; the
separator itself is dropped from the second component. -/
def splitOnFirst (p : Char → Bool) : List Char → List Char × Option (List Char)
  | [] => ([], none)
  | c :: t =>
    if p c then ([], some t)
    else
      let r := splitOnFirst p t
      (c :: r.1, r.2)

/-- Exact value of a decimal float literal, num / 10 ^ exp, before the
rounding to binary64. -/
structure DecFloat where
  num : Int
  exp : Nat
deriving DecidableEq, Repr

/-- Rational value denoted by a DecFloat (used in statements only). -/
def DecFloat.toRat (x : DecFloat) : ℚ :=
  (x.num : ℚ) / (10 : ℚ) ^ x.exp

/-- Negate a parsed mantissa when the literal carried a minus sign. -/
def applySgn (neg : Bool) (x : DecFloat) : DecFloat :=
  if neg then ⟨-x.num, x.exp⟩ else x

/-- Apply a decimal exponent to a parsed mantissa. -/
def applyExp (x : DecFloat) (e : Int) : DecFloat :=
  if 0 ≤ e then ⟨x.num * (10 : Int) ^ e.toNat, x.exp⟩ else ⟨x.num, x.exp + e.natAbs⟩

/-- Mantissa of a Python float literal: digits with an optional single
decimal point, at least one digit overall. -/
def parseMantissa (cs : List Char) : Option DecFloat :=
  match splitOnFirst (fun c => c = '.') cs with
  | (ip, none) => (digitsOpt ip).map (fun n => ⟨(n : Int), 0⟩)
  | (ip, some fp) =>
    if (ip.all Char.isDigit ∧ fp.all Char.isDigit) ∧ (ip ≠ [] ∨ fp ≠ []) then
      some ⟨(digitsVal (ip ++ fp) : Int), fp.length⟩
    else none

/-- Grammar of the Python float constructor on strings: an optional sign,
then a finite decimal literal with an optional exponent, kept as its
exact decimal value.  Unparsable strings map to none (the ValueError case
of the source). -/
def parseDecLit (s : String) : Option DecFloat :=
  let cs := s.data
  let neg := cs.head? = some '-'
  let body := if cs.head? = some '-' ∨ cs.head? = some '+' then cs.tail else cs
  match splitOnFirst (fun c => c = 'e' ∨ c = 'E') body with
  | (m, none) => (parseMantissa m).map (applySgn neg)
  | (m, some ecs) =>
    match parseMantissa m, pyInt (String.mk ecs) with
    | some q, some e => some (applySgn neg (applyExp q e))
    | _, _ => none

/-- Fuel-driven floor of the base-two logarithm, natLog2Fuel fuel n with
n ≤ fuel; fuel keeps the recursion structural so the kernel can reduce it. -/
def natLog2Fuel : Nat → Nat → Nat
  | 0, _ => 0
  | fuel + 1, n => if 2 ≤ n then natLog2Fuel fuel (n / 2) + 1 else 0

/-- Floor of the base-two logarithm of a positive natural number. -/
def natLog2 (n : Nat) : Nat := natLog2Fuel n n

/-- Does 2 ^ e ≤ a / den hold, for a signed exponent e? -/
def pow2LE (a den : Nat) (e : Int) : Bool :=
  if 0 ≤ e then den * 2 ^ e.toNat ≤ a else den ≤ a * 2 ^ (-e).toNat

/-- Floor of the base-two logarithm of the positive rational a / den. -/
def floorLog2 (a den : Nat) : Int :=
  if pow2LE a den ((natLog2 a : Int) - (natLog2 den : Int)) then
    (natLog2 a : Int) - (natLog2 den : Int)
  else (natLog2 a : Int) - (natLog2 den : Int) - 1

/-- Round x / y to the nearest integer, ties to even (the IEEE 754
default rounding used by every Python float operation modelled here). -/
def roundHalfEvenNat (x y : Nat) : Nat :=
  if 2 * (x % y) < y then x / y
  else if y < 2 * (x % y) then x / y + 1
  else if (x / y) % 2 = 0 then x / y else x / y + 1

/-- A binary64 value held exactly: the real number m * 2 ^ exp, where a
nonzero rounded result carries 53 significant bits in m. -/
structure B64 where
  m : Int
  exp : Int
deriving DecidableEq, Repr

/-- Reattach the sign of num to a rounded magnitude. -/
def signInt (num : Int) (m : Nat) : Int := if num < 0 then -(m : Int) else (m : Int)

/-- Round the exact rational num / den (den positive) to binary64: place
the floor logarithm, scale the magnitude to 53 bits and round half to
even.  Overflow and the subnormal range are outside the model. -/
def roundB64 (num : Int) (den : Nat) : B64 :=
  if num = 0 then ⟨0, 0⟩
  else if 0 ≤ (52 : Int) - floorLog2 num.natAbs den then
    ⟨signInt num
        (roundHalfEvenNat (num.natAbs * 2 ^ ((52 : Int) - floorLog2 num.natAbs den).toNat) den),
      floorLog2 num.natAbs den - 52⟩
  else
    ⟨signInt num
        (roundHalfEvenNat num.natAbs (den * 2 ^ (floorLog2 num.natAbs den - 52).toNat)),
      floorLog2 num.natAbs den - 52⟩

/-- Binary64 value of a parsed decimal literal: its exact value rounded
once, the correctly rounded conversion CPython performs in float(). -/
def decToB64 (x : DecFloat) : B64 := roundB64 x.num (10 ^ x.exp)

/-- Model of the Python float constructor on strings: parse the literal
and round its exact value to binary64. -/
def parseNum (s : String) : Option B64 := (parseDecLit s).map decToB64

/-- Truncation toward zero, the Python int(float) behaviour. -/
def truncB64 (x : B64) : Int :=
  if 0 ≤ x.exp then x.m * 2 ^ x.exp.toNat else x.m.tdiv (2 ^ (-x.exp).toNat)

/-- Binary64 division of a value by 10 ^ k: the exact quotient rounded
once, which is the correctly rounded IEEE 754 division because 10 ^ k is
exactly representable for every k a parsed decimals attribute yields
here. -/
def divPow10 (x : B64) (k : Nat) : B64 :=
  if 0 ≤ x.exp then roundB64 (x.m * 2 ^ x.exp.toNat) (10 ^ k)
  else roundB64 x.m (10 ^ k * 2 ^ (-x.exp).toNat)

/-- Digit groups of three, taken over a least-significant-first digit list. -/
def group3 : List Char → List (List Char)
  | [] => []
  | a :: b :: c :: rest => [a, b, c] :: group3 rest
  | l => [l]

/-- Join digit groups with comma separators. -/
def joinComma : List (List Char) → List Char
  | [] => []
  | [g] => g
  | g :: gs => g ++ ',' :: joinComma gs

/-- Model of the Python format f-string with a comma grouping on a natural
number: digits in groups of three separated by commas. -/
def commaFormatNat (n : Nat) : String :=
  String.mk (joinComma ((((Nat.toDigits 10 n).reverse |> group3).map List.reverse).reverse))

/-- Comma grouping of an integer, with a leading minus sign if negative. -/
def commaFormatInt (n : Int) : String :=
  (if n < 0 then "-" else "") ++ commaFormatNat n.natAbs

/-- Digits of m left-padded with zeros to d places. -/
def padZeros (d : Nat) (m : Nat) : List Char :=
  let ds := Nat.toDigits 10 m
  List.replicate (d - ds.length) '0' ++ ds

/-- Model of the Python fixed point comma format with d fractional
digits: scale the exact binary64 value, round half to even, then render
integer and fractional parts. -/
def formatFixed (x : B64) (d : Nat) : String :=
  let sign := if x.m < 0 then "-" else ""
  let a := if 0 ≤ x.exp then x.m.natAbs * 2 ^ x.exp.toNat * 10 ^ d else x.m.natAbs * 10 ^ d
  let b := if 0 ≤ x.exp then 1 else 2 ^ (-x.exp).toNat
  let rounded := roundHalfEvenNat a b
  sign ++ commaFormatNat (rounded / 10 ^ d) ++
    (if d = 0 then "" else "." ++ String.mk (padZeros d (rounded % 10 ^ d)))

/-- Model of the Python substring test needle in hay. -/
def listContainsSub (needle : List Char) : List Char → Bool
  | [] => needle.isPrefixOf []
  | c :: t => needle.isPrefixOf (c :: t) || listContainsSub needle t

/-- Substring containment on strings, needle contained in hay. -/
def strContains (hay needle : String) : Bool :=
  listContainsSub needle.data hay.data

/-- Model of the Python str.strip: drop whitespace from both ends. -/
def pyStrip (s : String) : String :=
  String.mk (((s.data.dropWhile Char.isWhitespace).reverse.dropWhile Char.isWhitespace).reverse)

/-- Suffix test for file extensions. -/
def strEndsWith (s suffix : String) : Bool :=
  suffix.data.isSuffixOf s.data

/-- Model of the Python str.startswith. -/
def strStartsWith (s pre : String) : Bool :=
  pre.data.isPrefixOf s.data

/-! ## Value normalizer (xbrl_parser.py, lines 350-419)

decimals_to_unit_label and format_number_with_decimals, translated from
the source.  The try/except ValueError structure of the source becomes
matches on the Option results of the parse models. -/

/-- Embedding of XBRLParser.decimals_to_unit_label: maps the decimals
attribute and the raw unit code to a Korean magnitude label.  The source
first returns the base label when decimals or unit is empty, then parses
decimals with int(); a ValueError also yields the base label. -/
def decimals_to_unit_label (decimals unit : String) : String :=
  if decimals = "" ∨ unit = "" then
    (if unit ≠ "" then "원 " ++ unit else "원")
  else
    match pyInt decimals with
    | none => (if unit ≠ "" then "원 " ++ unit else "원")
    | some decimal_value =>
      if decimal_value = -3 then "천원 " ++ unit
      else if decimal_value = -4 then "만원 " ++ unit
      else if decimal_value = -6 then "백만원 " ++ unit
      else if decimal_value = -8 then "억원 " ++ unit
      else "원 " ++ unit

/-- Embedding of XBRLParser.format_number_with_decimals: float(value)
failing yields "0"; a negative decimals divides by 10 to the magnitude of
decimals before integer comma formatting; a nonnegative decimals formats
with that many fractional digits; an unparsable decimals is ignored. -/
def format_number_with_decimals (value decimals : String) : String :=
  match parseNum value with
  | none => "0"
  | some num_value =>
    if decimals ≠ "" then
      match pyInt decimals with
      | some decimal_value =>
        if decimal_value < 0 then
          commaFormatInt (truncB64 (divPow10 num_value decimal_value.natAbs))
        else
          formatFixed num_value decimal_value.toNat
      | none => commaFormatInt (truncB64 num_value)
    else commaFormatInt (truncB64 num_value)

/-- Specification-side magnitude table of the Korean unit words used in
claims about decimals_to_unit_label. -/
def koreanMagnitude (d : Int) : String :=
  if d = -3 then "천원"
  else if d = -4 then "만원"
  else if d = -6 then "백만원"
  else if d = -8 then "억원"
  else "원"

example : parseDecLit "68548442000000" = some ⟨68548442000000, 0⟩ := by decide
example : (parseNum "68548442000000").map truncB64 = some 68548442000000 := by decide
example : format_number_with_decimals "68548442000000" "-6" = "68,548,442" := by decide
example : decimals_to_unit_label "-6" "KRW" = "백만원 KRW" := by decide
example : format_number_with_decimals "abc" "-6" = "0" := by decide
example : decimals_to_unit_label "-6" "" = "원" := by decide
example : format_number_with_decimals "12.75" "1" = "12.8" := by decide
example : format_number_with_decimals "1234567" "" = "1,234,567" := by decide
example : format_number_with_decimals "-12345" "-3" = "-12" := by decide

/-! ## Fiscal year extraction (xbrl_parser.py, lines 317-348)

The source applies re.search with the patterns FY(dddd), PFY(dddd),
BPFY(dddd), CFY(dddd) and finally (dddd)(Q[1-4])? in this order, the
first pattern that matches anywhere in the context reference winning, and
returns the captured four digits; with no match it returns "N/A".
re.search is modelled by trying the pattern at every start position from
the left. -/

/-- Match one year pattern at the start of cs: the literal marker followed
by exactly four digits; returns the four digit group. -/
def matchYearAt (marker : List Char) (cs : List Char) : Option (List Char) :=
  if marker.isPrefixOf cs then
    if ((cs.drop marker.length).take 4).length = 4 ∧
        ((cs.drop marker.length).take 4).all Char.isDigit then
      some ((cs.drop marker.length).take 4)
    else none
  else none

/-- Leftmost match of one year pattern anywhere in the list, the model of
re.search for these patterns. -/
def searchYear (marker : List Char) : List Char → Option (List Char)
  | [] => matchYearAt marker []
  | c :: t =>
    match matchYearAt marker (c :: t) with
    | some y => some y
    | none => searchYear marker t

def fyMarker : List Char := ['F', 'Y']

def pfyMarker : List Char := ['P', 'F', 'Y']

def bpfyMarker : List Char := ['B', 'P', 'F', 'Y']

def cfyMarker : List Char := ['C', 'F', 'Y']

/-- Embedding of XBRLParser.extract_year_from_context: ordered patterns,
first match wins, fallback "N/A".  The final bare pattern (dddd)(Q[1-4])?
captures only the four digits, so its optional quarter tail does not
affect the result and the bare pattern is modelled with an empty marker. -/
def extract_year_from_context (context_ref : String) : String :=
  match searchYear fyMarker context_ref.data with
  | some y => String.mk y
  | none =>
    match searchYear pfyMarker context_ref.data with
    | some y => String.mk y
    | none =>
      match searchYear bpfyMarker context_ref.data with
      | some y => String.mk y
      | none =>
        match searchYear cfyMarker context_ref.data with
        | some y => String.mk y
        | none =>
          match searchYear [] context_ref.data with
          | some y => String.mk y
          | none => "N/A"

example :
    extract_year_from_context
      "PFY2023eFY_ifrs-full_ConsolidatedAndSeparateFinancialStatementsAxis_ifrs-full_SeparateMember" =
      "2023" := by decide
example : extract_year_from_context "abc" = "N/A" := by decide
example : extract_year_from_context "D2023Q1" = "2023" := by decide
example : extract_year_from_context "x1999_FY2024" = "2024" := by decide

/-! ## Tag extractor (xbrl_parser.py, lines 207-315)

The parsed instance document is modelled as a list of elements carrying
the fields the source reads: qualified tag name, text, contextRef,
unitRef and decimals attributes.  get_xbrl_tags scans a fixed allow-list
of qualified names, keeps elements whose contextRef contains the
SeparateMember marker and whose stripped text and contextRef are
nonempty, and records the bare local name with the remaining fields. -/

structure XElem where
  name : String
  text : String
  contextRef : String
  unitRef : String
  decimals : String
deriving DecidableEq, Repr

/-- Extracted fact record, the dictionary built by get_xbrl_tags. -/
structure RawFact where
  item_name : String
  value : String
  contextRef : String
  unitRef : String
  decimals : String
deriving DecidableEq, Repr

/-- The fixed allow-list of qualified tag names of get_xbrl_tags. -/
def allowed_tags : List String :=
  ["ifrs-full:CurrentAssets",
   "ifrs-full:CashAndCashEquivalents",
   "ifrs-full:ShorttermDepositsNotClassifiedAsCashEquivalents",
   "ifrs-full:CurrentTradeReceivables",
   "dart:ShortTermOtherReceivablesNet",
   "ifrs-full:CurrentPrepaidExpenses",
   "ifrs-full:Inventories",
   "ifrs-full:OtherCurrentAssets",
   "ifrs-full:NoncurrentAssets",
   "ifrs-full:NoncurrentFinancialAssetsMeasuredAtFairValueThroughOtherComprehensiveIncome",
   "ifrs-full:NoncurrentFinancialAssetsAtFairValueThroughProfitOrLoss",
   "ifrs-full:InvestmentsInSubsidiariesJointVenturesAndAssociates",
   "ifrs-full:NoncurrentRecognisedAssetsDefinedBenefitPlan",
   "ifrs-full:DeferredTaxAssets",
   "ifrs-full:OtherNoncurrentAssets",
   "ifrs-full:Assets",
   "ifrs-full:CurrentLiabilities",
   "ifrs-full:TradeAndOtherCurrentPayablesToTradeSuppliers",
   "ifrs-full:OtherCurrentPayables",
   "ifrs-full:CurrentAdvances",
   "dart:ShortTermWithholdings",
   "ifrs-full:AccrualsClassifiedAsCurrent",
   "ifrs-full:CurrentTaxLiabilities",
   "ifrs-full:CurrentPortionOfLongtermBorrowings",
   "ifrs-full:CurrentProvisions",
   "ifrs-full:OtherCurrentLiabilities",
   "ifrs-full:NoncurrentLiabilities",
   "ifrs-full:NoncurrentPortionOfNoncurrentBondsIssued",
   "ifrs-full:NoncurrentPortionOfNoncurrentLoansReceived",
   "ifrs-full:OtherNoncurrentPayables",
   "ifrs-full:NoncurrentProvisions",
   "ifrs-full:OtherNoncurrentLiabilities",
   "ifrs-full:Liabilities",
   "ifrs-full:IssuedCapital",
   "dart:IssuedCapitalOfPreferredStock",
   "dart:IssuedCapitalOfCommonStock",
   "ifrs-full:SharePremium",
   "ifrs-full:RetainedEarnings",
   "dart:ElementsOfOtherStockholdersEquity",
   "ifrs-full:EquityAndLiabilities"]

/-- Bare local name of a qualified tag: the part after the first colon,
as computed by tag.name.split with a colon and limit one. -/
def localNameOf (name : String) : String :=
  match splitOnFirst (fun c => c = ':') name.data with
  | (_, some rest) => String.mk rest
  | (_, none) => name

/-- Per-element body of the get_xbrl_tags loop: strip the text, drop the
element unless its contextRef contains SeparateMember and both value and
contextRef are nonempty, and build the record otherwise. -/
def extractFromElem (e : XElem) : Option RawFact :=
  let local_name := localNameOf e.name
  let value := if e.text ≠ "" then pyStrip e.text else ""
  let context_ref := e.contextRef
  if strContains context_ref "SeparateMember" = false then none
  else
    let unit_ref := e.unitRef
    let decimals := e.decimals
    if value ≠ "" ∧ context_ref ≠ "" then
      some ⟨local_name, value, context_ref, unit_ref, decimals⟩
    else none

/-- Embedding of XBRLParser.get_xbrl_tags: for each allow-listed name in
order, find all elements with that exact name (document order) and apply
the loop body. -/
def get_xbrl_tags (doc : List XElem) : List RawFact :=
  allowed_tags.flatMap (fun tag_name =>
    (doc.filter (fun e => e.name = tag_name)).filterMap extractFromElem)

example :
    get_xbrl_tags
      [⟨"ifrs-full:Assets", " 10 ", "FY2023_SeparateMember", "KRW", "-6"⟩,
       ⟨"ifrs-full:Assets", "11", "FY2023_Consolidated", "KRW", "-6"⟩,
       ⟨"other:Tag", "12", "FY2023_SeparateMember", "KRW", "-6"⟩] =
      [⟨"Assets", "10", "FY2023_SeparateMember", "KRW", "-6"⟩] := by decide

/-! ## Document locator (xbrl_parser.py, lines 31-133)

find_xbrl_files resolves an entity identifier to one subdirectory of the
storage root and to the first instance document inside it.  The file
system is modelled as the list of subdirectories (in os.listdir order),
each carrying its file names.  Only the directory selection and the
instance-document check are modelled; XML parsing of the chosen file is
input/output beyond the shallow embedding.  Both failure points raise
FileNotFoundError in the source, modelled by the two constructors. -/

structure FilingDir where
  name : String
  files : List String
deriving DecidableEq, Repr

/-- The two FileNotFoundError sites of find_xbrl_files. -/
inductive LocateError where
  | dirNotFound
  | xbrlNotFound
deriving DecidableEq, Repr

/-- Directory selection of find_xbrl_files: first directory whose name
starts with corp_code, else first whose name contains corp_code, else the
last listed directory, else none when the root is empty. -/
def chooseCorpDir (corp_code : String) (available_dirs : List FilingDir) : Option FilingDir :=
  match available_dirs.find? (fun d => strStartsWith d.name corp_code) with
  | some d => some d
  | none =>
    match available_dirs.find? (fun d => strContains d.name corp_code) with
    | some d => some d
    | none => available_dirs.getLast?

/-- Embedding of XBRLParser.find_xbrl_files: choose the directory, then
require at least one file ending in .xbrl; the result carries the chosen
directory name and the first such file. -/
def find_xbrl_files (corp_code : String) (available_dirs : List FilingDir) :
    Except LocateError (String × String) :=
  match chooseCorpDir corp_code available_dirs with
  | none => Except.error LocateError.dirNotFound
  | some d =>
    match d.files.filter (fun f => strEndsWith f ".xbrl") with
    | [] => Except.error LocateError.xbrlNotFound
    | f :: _ => Except.ok (d.name, f)

example : find_xbrl_files "123" [] = Except.error LocateError.dirNotFound := rfl
example :
    find_xbrl_files "123" [⟨"999", ["a.txt"]⟩, ⟨"12345", ["doc.xbrl"]⟩] =
      Except.ok ("12345", "doc.xbrl") := rfl
example :
    find_xbrl_files "123" [⟨"999", ["a.xbrl"]⟩, ⟨"888", []⟩] =
      Except.error LocateError.xbrlNotFound := rfl

/-! ## Upsert engine (xbrl_parser_repository.py)

insert_dsd_source_bulk merges a batch of parsed records into the
dsd_source relation.  The database is modelled explicitly:

* DbState holds the stored rows, the next surrogate id, whether the
  relation exists and whether the uniqueness constraint
  unique_dsd_source_entry exists;
* database errors are modelled by an Oracle that can make the constraint
  setup fail and can raise a classified error at any per-record
  statement, matching the except clauses of the source
  (UniqueViolationError, PostgresError, anything else);
* the transaction wrapping the per-record loop rolls the state back to
  the state at entry whenever an error escapes the loop;
* the trace of issued statements is returned so that the no-operation
  behaviour on an empty batch is visible.

Both write paths of the source are modelled separately: the ON CONFLICT
upsert used when the constraint is available (onConflictUpsert, updating
the unique conflicting row) and the explicit check-then-update-or-insert
fallback (checkThenUpsert, updating by surrogate id the row found by the
existence check). -/

/-- One input record as handed to insert_dsd_source_bulk; the fields
carry the Korean-keyed dictionary entries of the source in order:
corp_code the record entry 기업코드, item_name the entry 항목명, value
the entry 값, year the entry 연도, unit the entry 단위. -/
structure InputRecord where
  corp_code : String
  item_name : String
  value : String
  year : String
  unit : String
deriving DecidableEq, Repr

/-- One preprocessed record, after field renaming and numeric parsing. -/
structure ProcessedRecord where
  corp_code : String
  source_name : String
  value : Int
  year : Nat
  unit : String
deriving DecidableEq, Repr

/-- One stored row of the dsd_source relation. -/
structure Row where
  id : Nat
  corp_code : String
  source_name : String
  value : Int
  year : Nat
  unit : String
deriving DecidableEq, Repr

/-- Natural key of a stored row. -/
def rowKey (r : Row) : String × String × Nat :=
  (r.corp_code, r.source_name, r.year)

/-- Natural key of a processed record. -/
def recKey (r : ProcessedRecord) : String × String × Nat :=
  (r.corp_code, r.source_name, r.year)

/-- The modelled database state. -/
structure DbState where
  rows : List Row
  nextId : Nat
  tableExists : Bool
  hasConstraint : Bool
deriving DecidableEq, Repr

/-- Classified database errors of the except clauses of the source. -/
inductive DbErr where
  | uniqueViolation
  | postgresError
  | otherError
deriving DecidableEq, Repr

/-- Error classification kinds appearing in the returned dictionary. -/
inductive ErrKind where
  | noValidRecords
  | uniqueViolation
  | dbError
  | unexpected
deriving DecidableEq, Repr

/-- Mapping from a raised error to the except clause that reports it. -/
def classifyErr : DbErr → ErrKind
  | DbErr.uniqueViolation => ErrKind.uniqueViolation
  | DbErr.postgresError => ErrKind.dbError
  | DbErr.otherError => ErrKind.unexpected

/-- Error oracle: ensureFails makes the constraint setup raise (the
source catches this inside _ensure_unique_constraint and returns False);
recFail i raises the given error at the statement for record i. -/
structure Oracle where
  ensureFails : Bool
  recFail : Nat → Option DbErr

/-- Statements issued against the store, recorded for the trace. -/
inductive DbOp where
  | ensureConstraint
  | countRows
  | upsertRecord
  | checkRecord
  | updateRecord
  | insertRecord
deriving DecidableEq, Repr

/-- The result dictionary of insert_dsd_source_bulk, reduced to the
fields the claims speak about: success flag, inserted and updated counts
and the classified error when present. -/
structure UpsertResult where
  success : Bool
  inserted : Nat
  updated : Nat
  err : Option ErrKind
deriving DecidableEq, Repr

/-- Model of the comma removal record.get 값 value preprocessing. -/
def removeCommas (s : String) : String :=
  String.mk (s.data.filter (fun c => c ≠ ','))

/-- Per-record preprocessing of insert_dsd_source_bulk: comma-free value
parsed as int(float(...)) with empty mapping to zero, year parsed as int
when all digits else zero; a ValueError skips the record (continue). -/
def processRecord (record : InputRecord) : Option ProcessedRecord :=
  let value_str := removeCommas record.value
  let valOpt : Option Int :=
    if value_str = "" then some 0 else (parseNum value_str).map truncB64
  match valOpt with
  | none => none
  | some value =>
    let year := if pyIsdigit record.year then digitsVal record.year.data else 0
    some ⟨record.corp_code, record.item_name, value, year, record.unit⟩

/-- The preprocessing loop over the batch. -/
def preprocessRecords (records : List InputRecord) : List ProcessedRecord :=
  records.filterMap processRecord

/-- Does a processed record fail the required-field validation? -/
def invalidRecord (r : ProcessedRecord) : Prop :=
  r.corp_code = "" ∨ r.source_name = "" ∨ r.year = 0

instance (r : ProcessedRecord) : Decidable (invalidRecord r) := by
  unfold invalidRecord
  infer_instance

/-- Faithful model of the required-field validation loop of the source,
which pops from the list it is iterating over: the Python for loop keeps
an iteration counter c that advances every round even when the element at
c was just removed, so the element after a removed one is skipped.  The
fuel argument counts remaining rounds; the initial length bounds the
number of rounds, and a round only runs while c is inside the list. -/
def validateRecordsAux : Nat → List ProcessedRecord → Nat → List ProcessedRecord
  | 0, cur, _ => cur
  | fuel + 1, cur, c =>
    if h : c < cur.length then
      if invalidRecord (cur.get ⟨c, h⟩) then
        validateRecordsAux fuel (cur.eraseIdx c) (c + 1)
      else
        validateRecordsAux fuel cur (c + 1)
    else cur

/-- The validation pass over the preprocessed batch. -/
def validateRecords (cur : List ProcessedRecord) : List ProcessedRecord :=
  validateRecordsAux cur.length cur 0

/-- Embedding of _ensure_unique_constraint: reports whether the
uniqueness constraint is available, creating it when the relation exists
and the constraint does not; any raised error is caught inside and
reported as False with no state change. -/
def ensure_unique_constraint (oracle : Oracle) (db : DbState) : Bool × DbState :=
  if oracle.ensureFails then (false, db)
  else if db.hasConstraint then (true, db)
  else if db.tableExists = false then (false, db)
  else (true, { db with hasConstraint := true })

/-- A fresh row built from a processed record. -/
def newRow (id : Nat) (r : ProcessedRecord) : Row :=
  ⟨id, r.corp_code, r.source_name, r.value, r.year, r.unit⟩

/-- Row-set semantics of one INSERT ... ON CONFLICT (corp_code,
source_name, year) DO UPDATE SET value, unit statement: the conflicting
row (unique under the constraint) gets its value and unit replaced,
otherwise a fresh row is appended; the flag is the xmax = 0 marker, true
exactly when a fresh insert happened. -/
def upsertRows (r : ProcessedRecord) (nextId : Nat) : List Row → Bool × List Row × Nat
  | [] => (true, [newRow nextId r], nextId + 1)
  | row :: rest =>
    if rowKey row = recKey r then
      (false, { row with value := r.value, unit := r.unit } :: rest, nextId)
    else
      let u := upsertRows r nextId rest
      (u.1, row :: u.2.1, u.2.2)

/-- The constraint-backed write path for one record. -/
def onConflictUpsert (r : ProcessedRecord) (db : DbState) : Bool × DbState :=
  let u := upsertRows r db.nextId db.rows
  (u.1, { db with rows := u.2.1, nextId := u.2.2 })

/-- UPDATE dsd_source SET value, unit WHERE id: the by-id update of the
fallback path. -/
def updateById (id : Nat) (r : ProcessedRecord) (rows : List Row) : List Row :=
  rows.map (fun row => if row.id = id then { row with value := r.value, unit := r.unit } else row)

/-- The fallback write path for one record: SELECT id by natural key,
then UPDATE by id when found, else INSERT; the flag is true exactly when
the insert branch ran. -/
def checkThenUpsert (r : ProcessedRecord) (db : DbState) : Bool × DbState :=
  match db.rows.find? (fun row => decide (rowKey row = recKey r)) with
  | some existing => (false, { db with rows := updateById existing.id r db.rows })
  | none =>
    (true, { db with rows := db.rows ++ [newRow db.nextId r], nextId := db.nextId + 1 })

/-- One write step on the path selected by the constraint flag. -/
def stepFn (useConflict : Bool) (r : ProcessedRecord) (db : DbState) : Bool × DbState :=
  if useConflict then onConflictUpsert r db else checkThenUpsert r db

/-- Outcome of the per-record loop. -/
structure LoopResult where
  err : Option DbErr
  inserted : Nat
  updated : Nat
  db : DbState
  ops : List DbOp
deriving Repr

/-- The per-record loop of insert_dsd_source_bulk: each record issues its
statement unless the oracle raises there, in which case the loop stops
with the error and the counts accumulated so far. -/
def runLoop (useConflict : Bool) (oracle : Oracle) :
    List ProcessedRecord → Nat → Nat → Nat → DbState → List DbOp → LoopResult
  | [], _, ins, upd, db, ops => ⟨none, ins, upd, db, ops⟩
  | r :: rest, idx, ins, upd, db, ops =>
    match oracle.recFail idx with
    | some e => ⟨some e, ins, upd, db, ops⟩
    | none =>
      let s := stepFn useConflict r db
      let newOps := ops ++
        (if useConflict then [DbOp.upsertRecord]
         else if s.1 then [DbOp.checkRecord, DbOp.insertRecord]
         else [DbOp.checkRecord, DbOp.updateRecord])
      if s.1 then runLoop useConflict oracle rest (idx + 1) (ins + 1) upd s.2 newOps
      else runLoop useConflict oracle rest (idx + 1) ins (upd + 1) s.2 newOps

/-- Embedding of insert_dsd_source_bulk.  An empty batch returns at once
with no statement issued.  A batch with no valid record after
preprocessing and validation returns a failure dictionary, also with no
statement.  Otherwise the transaction runs: constraint setup, the initial
COUNT (which raises a PostgresError when the relation is missing), the
per-record loop on the path selected by the constraint flag, and the
final COUNT; an error escaping the loop rolls the transaction back to the
entry state and is classified into the failure dictionary together with
the partial counts. -/
def insert_dsd_source_bulk (records : List InputRecord) (oracle : Oracle) (db : DbState) :
    UpsertResult × DbState × List DbOp :=
  if records = [] then
    (⟨true, 0, 0, none⟩, db, [])
  else
    let processed := validateRecords (preprocessRecords records)
    if processed = [] then
      (⟨false, 0, 0, some ErrKind.noValidRecords⟩, db, [])
    else
      let ensured := ensure_unique_constraint oracle db
      if db.tableExists = false then
        (⟨false, 0, 0, some ErrKind.dbError⟩, db, [DbOp.ensureConstraint, DbOp.countRows])
      else
        let out := runLoop ensured.1 oracle processed 0 0 0 ensured.2
          [DbOp.ensureConstraint, DbOp.countRows]
        match out.err with
        | some e => (⟨false, out.inserted, out.updated, some (classifyErr e)⟩, db, out.ops)
        | none => (⟨true, out.inserted, out.updated, none⟩, out.db, out.ops ++ [DbOp.countRows])

/-- A no-failure oracle for concrete runs. -/
def quietOracle : Oracle :=
  ⟨false, fun _ => none⟩

/-- An empty database whose relation exists without the constraint. -/
def emptyDb : DbState :=
  ⟨[], 1, true, false⟩

example :
    (insert_dsd_source_bulk
      [⟨"C1", "자산총계", "68,548,442", "2023", "백만원 KRW"⟩] quietOracle emptyDb).1 =
      ⟨true, 1, 0, none⟩ := by decide
example :
    (insert_dsd_source_bulk
      [⟨"C1", "자산총계", "68,548,442", "2023", "백만원 KRW"⟩,
       ⟨"C1", "자산총계", "70,000,000", "2023", "백만원 KRW"⟩] quietOracle emptyDb).1 =
      ⟨true, 1, 1, none⟩ := by decide
example :
    (insert_dsd_source_bulk
      [⟨"", "x", "1", "2023", "u"⟩] quietOracle emptyDb).1 =
      ⟨false, 0, 0, some ErrKind.noValidRecords⟩ := by decide

/-! ## Lemmas about the numeric parse models -/

lemma splitOnFirst_all_false {p : Char → Bool} :
    ∀ {cs : List Char}, (∀ c ∈ cs, p c = false) → splitOnFirst p cs = (cs, none) := by
  intro cs h
  induction cs with
  | nil => rfl
  | cons c t ih =>
    have hc := h c (List.mem_cons_self c t)
    simp only [splitOnFirst, hc, Bool.false_eq_true, if_false]
    rw [ih (fun x hx => h x (List.mem_cons_of_mem c hx))]

lemma char_digit_ne {c q : Char} (hc : c.isDigit = true) (hq : q.isDigit = false) : c ≠ q := by
  intro he
  rw [he, hq] at hc
  cases hc

lemma parseDecLit_digits (s : String) (h1 : s.data ≠ [])
    (h2 : s.data.all Char.isDigit = true) :
    parseDecLit s = some ⟨(digitsVal s.data : Int), 0⟩ := by
  obtain ⟨c, t, hct⟩ : ∃ c t, s.data = c :: t := by
    cases hd : s.data with
    | nil => exact absurd hd h1
    | cons c t => exact ⟨c, t, rfl⟩
  have hall : ∀ x ∈ s.data, x.isDigit = true := by
    simpa [List.all_eq_true] using h2
  have hc : c.isDigit = true := hall c (hct ▸ List.mem_cons_self c t)
  have hnm : c ≠ '-' := char_digit_ne hc (by decide)
  have hnp : c ≠ '+' := char_digit_ne hc (by decide)
  have hsplitE :
      splitOnFirst (fun x => decide (x = 'e' ∨ x = 'E')) (c :: t) = (c :: t, none) := by
    apply splitOnFirst_all_false
    intro x hx
    have hdx := hall x (hct ▸ hx)
    have hxe : x ≠ 'e' := char_digit_ne hdx (by decide)
    have hxE : x ≠ 'E' := char_digit_ne hdx (by decide)
    simp [hxe, hxE]
  have hsplitD : splitOnFirst (fun x => decide (x = '.')) (c :: t) = (c :: t, none) := by
    apply splitOnFirst_all_false
    intro x hx
    have hdx := hall x (hct ▸ hx)
    have hxd : x ≠ '.' := char_digit_ne hdx (by decide)
    simp [hxd]
  have hopt : digitsOpt (c :: t) = some (digitsVal (c :: t)) := by
    rw [digitsOpt, if_pos]
    refine ⟨by simp, ?_⟩
    rw [← hct]
    exact h2
  simp only [parseDecLit, hct, List.head?, Option.some.injEq, hnm, hnp, or_self, if_false]
  rw [hsplitE]
  simp only [parseMantissa, hsplitD, hopt]
  simp [applySgn, hnm]

lemma pyInt_some_ne_empty {s : String} {d : Int} (h : pyInt s = some d) : s ≠ "" := by
  intro he
  subst he
  have : pyInt "" = none := by decide
  rw [this] at h
  cases h

lemma parseNum_digits (s : String) (h1 : s.data ≠ []) (h2 : s.data.all Char.isDigit = true) :
    parseNum s = some (roundB64 ((digitsVal s.data : Nat) : Int) 1) := by
  rw [parseNum, parseDecLit_digits s h1 h2]
  rfl

lemma natLog2Fuel_bounds :
    ∀ fuel n : Nat, 1 ≤ n → n ≤ fuel →
      2 ^ natLog2Fuel fuel n ≤ n ∧ n < 2 ^ (natLog2Fuel fuel n + 1) := by
  intro fuel
  induction fuel with
  | zero => intro n h1 h2; omega
  | succ f ih =>
    intro n h1 h2
    rw [natLog2Fuel]
    by_cases h : 2 ≤ n
    · rw [if_pos h]
      obtain ⟨hl, hh⟩ := ih (n / 2) (by omega) (by omega)
      constructor
      · rw [pow_succ]
        omega
      · rw [pow_succ]
        omega
    · rw [if_neg h]
      norm_num
      omega

lemma natLog2_bounds (n : Nat) (h : 1 ≤ n) :
    2 ^ natLog2 n ≤ n ∧ n < 2 ^ (natLog2 n + 1) :=
  natLog2Fuel_bounds n n h (le_refl n)

lemma floorLog2_true (a den : Nat) (ha : 1 ≤ a) (hden : 1 ≤ den) :
    pow2LE a den (floorLog2 a den) = true := by
  rw [floorLog2]
  by_cases h : pow2LE a den ((natLog2 a : Int) - (natLog2 den : Int)) = true
  · rw [if_pos h]
    exact h
  · rw [if_neg h]
    obtain ⟨hla, -⟩ := natLog2_bounds a ha
    obtain ⟨-, hlb2⟩ := natLog2_bounds den hden
    rw [pow2LE]
    by_cases hsgn : (0 : Int) ≤ (natLog2 a : Int) - (natLog2 den : Int) - 1
    · rw [if_pos hsgn]
      simp only [decide_eq_true_eq]
      have htn : ((natLog2 a : Int) - (natLog2 den : Int) - 1).toNat =
          natLog2 a - natLog2 den - 1 := by omega
      rw [htn]
      have hsplit : (2 : Nat) ^ (natLog2 den + 1) * 2 ^ (natLog2 a - natLog2 den - 1) =
          2 ^ natLog2 a := by
        rw [← pow_add]
        congr 1
        omega
      refine le_of_lt ?_
      calc den * 2 ^ (natLog2 a - natLog2 den - 1)
          < 2 ^ (natLog2 den + 1) * 2 ^ (natLog2 a - natLog2 den - 1) :=
            (Nat.mul_lt_mul_right (Nat.two_pow_pos _)).mpr hlb2
        _ = 2 ^ natLog2 a := hsplit
        _ ≤ a := hla
    · rw [if_neg hsgn]
      simp only [decide_eq_true_eq]
      have htn : (-((natLog2 a : Int) - (natLog2 den : Int) - 1)).toNat =
          natLog2 den + 1 - natLog2 a := by omega
      rw [htn]
      have hsplit : (2 : Nat) ^ natLog2 a * 2 ^ (natLog2 den + 1 - natLog2 a) =
          2 ^ (natLog2 den + 1) := by
        rw [← pow_add]
        congr 1
        omega
      refine le_of_lt ?_
      calc den < 2 ^ (natLog2 den + 1) := hlb2
        _ = 2 ^ natLog2 a * 2 ^ (natLog2 den + 1 - natLog2 a) := hsplit.symm
        _ ≤ a * 2 ^ (natLog2 den + 1 - natLog2 a) := Nat.mul_le_mul_right _ hla

lemma floorLog2_le_52 (a b : Nat) (ha : 1 ≤ a) (hb : 1 ≤ b) (hab : a < 2 ^ 53 * b) :
    floorLog2 a b ≤ 52 := by
  by_contra hgt
  push_neg at hgt
  have hlow := floorLog2_true a b ha hb
  rw [pow2LE, if_pos (by omega : (0 : Int) ≤ floorLog2 a b)] at hlow
  simp only [decide_eq_true_eq] at hlow
  have h53 : (2 : Nat) ^ 53 ≤ 2 ^ (floorLog2 a b).toNat :=
    Nat.pow_le_pow_right (by norm_num) (by omega)
  have hstep : 2 ^ 53 * b ≤ b * 2 ^ (floorLog2 a b).toNat := by
    rw [mul_comm]
    exact Nat.mul_le_mul_left b h53
  have hcontra : 2 ^ 53 * b ≤ a := le_trans hstep hlow
  omega

lemma pow2LE_den_bound (a b c : Nat) (hc : 1 ≤ c) (ha2 : a < 2 ^ 53) {e : Int}
    (h : pow2LE (a * c) (b * c) e = true) (he : e ≤ 52) :
    b < 2 ^ ((52 - e).toNat + 1) := by
  rw [pow2LE] at h
  by_cases hsgn : (0 : Int) ≤ e
  · rw [if_pos hsgn] at h
    simp only [decide_eq_true_eq] at h
    have hcancel : b * 2 ^ e.toNat ≤ a := by
      refine Nat.le_of_mul_le_mul_right ?_ (show 0 < c by omega)
      calc b * 2 ^ e.toNat * c = b * c * 2 ^ e.toNat := by ring
        _ ≤ a * c := h
    have hsplit : (2 : Nat) ^ e.toNat * 2 ^ (53 - e.toNat) = 2 ^ 53 := by
      rw [← pow_add]
      congr 1
      omega
    have hlt : b * 2 ^ e.toNat < 2 ^ e.toNat * 2 ^ (53 - e.toNat) := by
      rw [hsplit]
      exact lt_of_le_of_lt hcancel ha2
    have hb2 : b < 2 ^ (53 - e.toNat) := by
      rw [mul_comm] at hlt
      exact Nat.lt_of_mul_lt_mul_left hlt
    have htn : (52 - e).toNat + 1 = 53 - e.toNat := by omega
    rw [htn]
    exact hb2
  · rw [if_neg hsgn] at h
    simp only [decide_eq_true_eq] at h
    have hcancel : b ≤ a * 2 ^ (-e).toNat := by
      refine Nat.le_of_mul_le_mul_right ?_ (show 0 < c by omega)
      calc b * c ≤ a * c * 2 ^ (-e).toNat := h
        _ = a * 2 ^ (-e).toNat * c := by ring
    have hsum : (2 : Nat) ^ 53 * 2 ^ (-e).toNat = 2 ^ ((52 - e).toNat + 1) := by
      rw [← pow_add]
      congr 1
      omega
    calc b ≤ a * 2 ^ (-e).toNat := hcancel
      _ < 2 ^ 53 * 2 ^ (-e).toNat := (Nat.mul_lt_mul_right (Nat.two_pow_pos _)).mpr ha2
      _ = 2 ^ ((52 - e).toNat + 1) := hsum

lemma roundHalfEvenNat_mul (m y : Nat) (hy : 1 ≤ y) : roundHalfEvenNat (m * y) y = m := by
  rw [roundHalfEvenNat, Nat.mul_mod_left, Nat.mul_div_cancel m (by omega : 0 < y)]
  rw [if_pos (by omega)]

lemma roundHalfEvenNat_one (x : Nat) : roundHalfEvenNat x 1 = x := by
  rw [roundHalfEvenNat]
  simp [Nat.mod_one, Nat.div_one]

lemma roundHalfEvenNat_bounds (x y : Nat) (hy : 1 ≤ y) :
    2 * roundHalfEvenNat x y * y ≤ 2 * x + y ∧
    2 * x ≤ 2 * roundHalfEvenNat x y * y + y := by
  have hdm := Nat.div_add_mod x y
  have hm : x % y < y := Nat.mod_lt x (by omega)
  have e1 : 2 * (x / y) * y = 2 * (y * (x / y)) := by ring
  have e2 : 2 * (x / y + 1) * y = 2 * (y * (x / y)) + 2 * y := by ring
  rw [roundHalfEvenNat]
  split_ifs with h1 h2 h3 <;> constructor <;> (first | rw [e1] | rw [e2]) <;> omega

lemma roundB64_pos_eq (x y : Nat) (hx : 1 ≤ x) (he : floorLog2 x y ≤ 52) :
    roundB64 ((x : Nat) : Int) y =
      ⟨((roundHalfEvenNat (x * 2 ^ ((52 : Int) - floorLog2 x y).toNat) y : Nat) : Int),
        floorLog2 x y - 52⟩ := by
  rw [roundB64, if_neg (Int.natCast_ne_zero.mpr (by omega : x ≠ 0))]
  simp only [Int.natAbs_ofNat]
  rw [if_pos (by omega : (0 : Int) ≤ 52 - floorLog2 x y)]
  rw [signInt, if_neg (Int.not_lt.mpr (Int.natCast_nonneg x))]

lemma truncB64_mk (mh : Nat) (e : Int) (he : e ≤ 52) :
    truncB64 ⟨(mh : Int), e - 52⟩ = ((mh / 2 ^ (52 - e).toNat : Nat) : Int) := by
  rw [truncB64]
  dsimp only
  by_cases h : (0 : Int) ≤ e - 52
  · rw [if_pos h]
    have he52 : e = 52 := by omega
    subst he52
    norm_num
  · rw [if_neg h]
    have htn : (-(e - 52)).toNat = (52 - e).toNat := by omega
    rw [htn]
    rw [show ((2 : Int) ^ (52 - e).toNat) = (((2 ^ (52 - e).toNat : Nat) : Int)) by push_cast; ring]
    exact (Int.ofNat_tdiv mh (2 ^ (52 - e).toNat)).symm

lemma trunc_roundB64_div (a c k : Nat) (ha1 : 1 ≤ a) (ha2 : a < 2 ^ 53) (hc : 1 ≤ c) :
    truncB64 (roundB64 ((a * c : Nat) : Int) (10 ^ k * c)) = ((a / 10 ^ k : Nat) : Int) := by
  have hac : 1 ≤ a * c := by
    have := Nat.mul_pos (show 0 < a by omega) (show 0 < c by omega)
    omega
  have hbc : 1 ≤ 10 ^ k * c := by
    have h10 : 0 < (10 : Nat) ^ k := Nat.pos_pow_of_pos k (by norm_num)
    have := Nat.mul_pos h10 (show 0 < c by omega)
    omega
  have habound : a * c < 2 ^ 53 * (10 ^ k * c) := by
    calc a * c < 2 ^ 53 * c := (Nat.mul_lt_mul_right (by omega)).mpr ha2
      _ ≤ 2 ^ 53 * (10 ^ k * c) :=
          Nat.mul_le_mul_left _ (Nat.le_mul_of_pos_left c (Nat.pos_pow_of_pos k (by norm_num)))
  have he52 : floorLog2 (a * c) (10 ^ k * c) ≤ 52 := floorLog2_le_52 _ _ hac hbc habound
  have hlow := floorLog2_true (a * c) (10 ^ k * c) hac hbc
  have hF2 : 10 ^ k < 2 ^ ((52 - floorLog2 (a * c) (10 ^ k * c)).toNat + 1) :=
    pow2LE_den_bound a (10 ^ k) c hc ha2 hlow he52
  rw [roundB64_pos_eq (a * c) (10 ^ k * c) hac he52]
  rw [truncB64_mk _ _ he52]
  rw [Nat.cast_inj]
  set s := ((52 : Int) - floorLog2 (a * c) (10 ^ k * c)).toNat with hs
  obtain ⟨hup, hdown⟩ := roundHalfEvenNat_bounds (a * c * 2 ^ s) (10 ^ k * c) hbc
  have hdm := Nat.div_add_mod a (10 ^ k)
  have hmlt : a % 10 ^ k < 10 ^ k := Nat.mod_lt a (by omega)
  have hexpand : 2 * (a * c * 2 ^ s) =
      2 * (a / 10 ^ k * 2 ^ s) * (10 ^ k * c) + 2 * (a % 10 ^ k) * (c * 2 ^ s) := by
    conv_lhs => rw [show a = 10 ^ k * (a / 10 ^ k) + a % 10 ^ k by omega]
    ring
  rcases Nat.eq_zero_or_pos (a % 10 ^ k) with hr0 | hr1
  · have ha0 : a = 10 ^ k * (a / 10 ^ k) := by omega
    have harg : a * c * 2 ^ s = a / 10 ^ k * 2 ^ s * (10 ^ k * c) := by
      conv_lhs => rw [ha0]
      ring
    rw [harg, roundHalfEvenNat_mul _ _ hbc, Nat.mul_div_cancel _ (Nat.two_pow_pos s)]
  · apply Nat.div_eq_of_lt_le
    · by_contra hconlt
      push_neg at hconlt
      have h1 : roundHalfEvenNat (a * c * 2 ^ s) (10 ^ k * c) + 1 ≤ a / 10 ^ k * 2 ^ s :=
        Nat.succ_le_of_lt hconlt
      have hstep := Nat.mul_le_mul_right (10 ^ k * c) (Nat.mul_le_mul_left 2 h1)
      rw [hexpand] at hdown
      generalize hqv : a / 10 ^ k = q at hstep hdown
      generalize hrv : a % 10 ^ k = r at hdown
      generalize hP : (2 : Nat) ^ s = P at hstep hdown
      generalize hT : (10 : Nat) ^ k = T at hstep hdown hbc
      linarith [hdown, hstep, hbc, Nat.zero_le (2 * r * (c * P))]
    · by_contra hconge
      push_neg at hconge
      have hstep := Nat.mul_le_mul_right (10 ^ k * c) (Nat.mul_le_mul_left 2 hconge)
      rw [hexpand] at hup
      have hr2 : (a % 10 ^ k + 1) * (c * 2 ^ s) ≤ 10 ^ k * (c * 2 ^ s) :=
        Nat.mul_le_mul_right _ (by omega)
      have hF2m : (10 ^ k + 1) * c ≤ 2 ^ (s + 1) * c := Nat.mul_le_mul_right c (by omega)
      have hpows : (2 : Nat) ^ (s + 1) * c = 2 * 2 ^ s * c := by
        rw [pow_succ]
        ring
      rw [hpows] at hF2m
      generalize hqv : a / 10 ^ k = q at hstep hup
      generalize hrv : a % 10 ^ k = r at hup hr2
      generalize hP : (2 : Nat) ^ s = P at hstep hup hr2 hF2m
      generalize hT : (10 : Nat) ^ k = T at hstep hup hr2 hF2m
      linarith [hup, hstep, hr2, hF2m, hc]

lemma roundB64_one (x : Nat) (hx : 1 ≤ x) (hs : x < 2 ^ 53) :
    roundB64 ((x : Nat) : Int) 1 =
      ⟨((x * 2 ^ (52 - natLog2 x) : Nat) : Int), (natLog2 x : Int) - 52⟩ := by
  have h0 : natLog2 1 = 0 := rfl
  have hcond : pow2LE x 1 ((natLog2 x : Int) - (natLog2 1 : Int)) = true := by
    rw [pow2LE, if_pos (by rw [h0]; omega)]
    simp only [decide_eq_true_eq, one_mul]
    have htn : ((natLog2 x : Int) - (natLog2 1 : Int)).toNat = natLog2 x := by
      rw [h0]
      omega
    rw [htn]
    exact (natLog2_bounds x hx).1
  have hfl1 : floorLog2 x 1 = (natLog2 x : Int) := by
    rw [floorLog2, if_pos hcond, h0]
    omega
  have hla52 : natLog2 x ≤ 52 := by
    by_contra hgt
    have hlb := (natLog2_bounds x hx).1
    have h2 : (2 : Nat) ^ 53 ≤ 2 ^ natLog2 x := Nat.pow_le_pow_right (by norm_num) (by omega)
    have : (2 : Nat) ^ 53 ≤ x := le_trans h2 hlb
    omega
  have hrb := roundB64_pos_eq x 1 hx (by rw [hfl1]; omega)
  rw [hfl1] at hrb
  have htn : ((52 : Int) - (natLog2 x : Int)).toNat = 52 - natLog2 x := by omega
  rw [htn, roundHalfEvenNat_one] at hrb
  exact hrb

lemma divPow10_round (x k : Nat) (hx : 1 ≤ x) (hs : x < 2 ^ 53) :
    truncB64 (divPow10 (roundB64 ((x : Nat) : Int) 1) k) = ((x / 10 ^ k : Nat) : Int) := by
  rw [roundB64_one x hx hs, divPow10]
  dsimp only
  have hla52 : natLog2 x ≤ 52 := by
    by_contra hgt
    have hlb := (natLog2_bounds x hx).1
    have h2 : (2 : Nat) ^ 53 ≤ 2 ^ natLog2 x := Nat.pow_le_pow_right (by norm_num) (by omega)
    have : (2 : Nat) ^ 53 ≤ x := le_trans h2 hlb
    omega
  by_cases hla : natLog2 x = 52
  · rw [hla]
    rw [if_pos (by norm_num)]
    have e1 : (((x * 2 ^ (52 - 52) : Nat) : Int)) * 2 ^ ((((52 : Nat) : Int)) - 52).toNat =
        ((x * 1 : Nat) : Int) := by
      norm_num
    rw [e1]
    conv_lhs => rw [show (10 : Nat) ^ k = 10 ^ k * 1 from (Nat.mul_one _).symm]
    exact trunc_roundB64_div x 1 k hx hs (le_refl 1)
  · have hlt : natLog2 x < 52 := lt_of_le_of_ne hla52 hla
    rw [if_neg (by omega)]
    have e2 : (-((natLog2 x : Int) - 52)).toNat = 52 - natLog2 x := by omega
    rw [e2]
    exact trunc_roundB64_div x (2 ^ (52 - natLog2 x)) k hx hs Nat.one_le_two_pow

lemma trunc_div_round_zero (k : Nat) :
    truncB64 (divPow10 (roundB64 (((0 : Nat) : Int)) 1) k) = 0 := rfl

lemma commaFormatInt_natCast (m : Nat) : commaFormatInt ((m : Nat) : Int) = commaFormatNat m := by
  rw [commaFormatInt, if_neg (Int.not_lt.mpr (Int.natCast_nonneg m))]
  rw [Int.natAbs_ofNat]
  rfl

/-! ## Claim C10 -/

/-- C10: for every decimals string, an empty raw unit reference makes
decimals_to_unit_label return the bare base label without magnitude word
or unit code, even for the magnitude decimals values. -/
theorem empty_unit_yields_base_label (decimals : String) :
    decimals_to_unit_label decimals "" = "원" := by
  rw [decimals_to_unit_label, if_pos (Or.inr rfl)]
  simp

/-! ## Claim C9 -/

/-- C9: the empty batch returns success with zero inserted and updated
counts immediately, with no statement issued and the stored state
unchanged. -/
theorem insert_bulk_empty_batch_noop (oracle : Oracle) (db : DbState) :
    insert_dsd_source_bulk [] oracle db = (⟨true, 0, 0, none⟩, db, []) := by
  rw [insert_dsd_source_bulk, if_pos rfl]

/-! ## Claim C5 (corrected) -/

/-- C5 counterexample: for the non-numeric raw value "abc" with decimals
"-6" and unit "KRW" the formatted value is "0" as claimed, but the unit
label is the magnitude label, not the base-unit label 원 KRW, because the
label function never looks at the raw value. -/
theorem nonnumeric_value_base_label_counterexample :
    parseNum "abc" = none ∧
    format_number_with_decimals "abc" "-6" = "0" ∧
    decimals_to_unit_label "-6" "KRW" ≠ "원 KRW" := by
  refine ⟨by decide, by decide, by decide⟩

/-- C5 amended: a raw value that does not parse as a number always
formats as "0" (the ValueError is recovered, so the record never aborts
the batch and nothing is raised), and the unit label does not depend on
the raw value at all: it is exactly the bare base label for an empty
unit, and otherwise the magnitude word selected by decimals alone (the
base word 원 when decimals is empty, unparsable or unrecognized) followed
by the unit code. -/
theorem nonnumeric_value_formats_zero (value decimals unit : String)
    (h : parseNum value = none) :
    format_number_with_decimals value decimals = "0" ∧
    decimals_to_unit_label decimals unit =
      (if unit = "" then "원"
       else
         match pyInt decimals with
         | none => "원 " ++ unit
         | some dv => koreanMagnitude dv ++ " " ++ unit) := by
  constructor
  · rw [format_number_with_decimals, h]
  · by_cases hu : unit = ""
    · rw [if_pos hu, decimals_to_unit_label, if_pos (Or.inr hu), if_neg (by simp [hu])]
    · rw [if_neg hu]
      by_cases hde : decimals = ""
      · rw [decimals_to_unit_label, if_pos (Or.inl hde), if_pos hu, hde]
        rfl
      · rw [decimals_to_unit_label, if_neg (by simp [hde, hu])]
        cases hp : pyInt decimals with
        | none => rw [if_pos hu]
        | some dv =>
          simp only [koreanMagnitude]
          split_ifs <;> rfl

/-- Witness for the amended C5 at concrete inputs. -/
theorem nonnumeric_value_formats_zero_witness :
    format_number_with_decimals "abc" "xx" = "0" ∧
    decimals_to_unit_label "xx" "KRW" = "원 KRW" := by
  have h := nonnumeric_value_formats_zero "abc" "xx" "KRW" (by decide)
  exact ⟨h.1, h.2.trans (by decide)⟩

/-! ## Claim C3 (corrected) -/

/-- C3 counterexample: at the all-digit raw value 9999999999999999 with
decimals -3, float() rounds the value to 10 ^ 16 (ties to even at 53
significant bits), so the program formats 10,000,000,000,000 while the
raw value divided by 10 ^ 3 truncates to 9,999,999,999,999: the claimed
equality fails on a numeric raw value with recognized decimals. -/
theorem negative_decimals_float_rounding_counterexample :
    (("9999999999999999" : String).data ≠ [] ∧
      ("9999999999999999" : String).data.all Char.isDigit = true ∧
      pyInt "-3" = some (-3)) ∧
    format_number_with_decimals "9999999999999999" "-3" = "10,000,000,000,000" ∧
    commaFormatNat (digitsVal ("9999999999999999" : String).data / 10 ^ (-3 : Int).natAbs) =
      "9,999,999,999,999" ∧
    format_number_with_decimals "9999999999999999" "-3" ≠
      commaFormatNat (digitsVal ("9999999999999999" : String).data / 10 ^ (-3 : Int).natAbs) := by
  refine ⟨⟨by decide, by decide, by decide⟩, by decide, by decide, by decide⟩

/-- C3 (amended): for an all-digit raw value below 2 ^ 53 whose decimals
parse to one of -3, -4, -6, -8, the formatted value is the raw value
divided by 10 to the magnitude of decimals, truncated and comma-grouped,
and the unit label is the matching Korean magnitude word followed by the
raw unit code.  Below 2 ^ 53 the float conversion is exact and the one
rounding of the division stays within the unit interval of the exact
quotient, so the truncated result is unchanged; the counterexample shows
the bound is necessary. -/
theorem negative_decimals_scaling_correct (value decimals unit : String) (d : Int)
    (hv : value.data ≠ []) (hdig : value.data.all Char.isDigit = true)
    (hsmall : digitsVal value.data < 2 ^ 53)
    (hd : pyInt decimals = some d)
    (hmag : d = -3 ∨ d = -4 ∨ d = -6 ∨ d = -8)
    (hu : unit ≠ "") :
    format_number_with_decimals value decimals =
      commaFormatNat (digitsVal value.data / 10 ^ d.natAbs) ∧
    decimals_to_unit_label decimals unit = koreanMagnitude d ++ " " ++ unit := by
  have hpn := parseNum_digits value hv hdig
  have hne : decimals ≠ "" := pyInt_some_ne_empty hd
  have hdneg : d < 0 := by rcases hmag with h | h | h | h <;> simp [h]
  constructor
  · rw [format_number_with_decimals, hpn]
    dsimp only
    rw [if_pos hne, hd]
    dsimp only
    rw [if_pos hdneg]
    rcases Nat.eq_zero_or_pos (digitsVal value.data) with hn0 | hn1
    · rw [hn0, trunc_div_round_zero, Nat.zero_div]
      decide
    · rw [divPow10_round (digitsVal value.data) d.natAbs hn1 hsmall, commaFormatInt_natCast]
  · rw [decimals_to_unit_label, if_neg (by simp [hne, hu]), hd]
    rcases hmag with h | h | h | h <;> subst h <;> rfl

/-- Witness for the amended C3 at the example of the specification. -/
theorem negative_decimals_scaling_witness :
    format_number_with_decimals "68548442000000" "-6" = "68,548,442" ∧
    decimals_to_unit_label "-6" "KRW" = "백만원 KRW" := by
  have h := negative_decimals_scaling_correct "68548442000000" "-6" "KRW" (-6)
    (by decide) (by decide) (by decide) (by decide) (Or.inr (Or.inr (Or.inl rfl))) (by decide)
  exact ⟨h.1.trans (by decide), h.2.trans (by decide)⟩

/-! ## Lemmas about the year pattern search -/

lemma matchYearAt_some_elim {marker cs : List Char} {y : List Char}
    (h : matchYearAt marker cs = some y) :
    marker.isPrefixOf cs = true ∧ y = (cs.drop marker.length).take 4 ∧
      ((cs.drop marker.length).take 4).length = 4 ∧
      ((cs.drop marker.length).take 4).all Char.isDigit = true := by
  unfold matchYearAt at h
  split_ifs at h with h1 h2
  exact ⟨h1, (Option.some.inj h).symm, h2.1, h2.2⟩

lemma matchYearAt_some_intro {marker cs : List Char}
    (h1 : marker.isPrefixOf cs = true)
    (h2 : ((cs.drop marker.length).take 4).length = 4)
    (h3 : ((cs.drop marker.length).take 4).all Char.isDigit = true) :
    matchYearAt marker cs = some ((cs.drop marker.length).take 4) := by
  unfold matchYearAt
  rw [if_pos h1, if_pos ⟨h2, h3⟩]

lemma matchYearAt_digit {marker cs : List Char} {y : List Char}
    (h : matchYearAt marker cs = some y) : ∃ c ∈ cs, c.isDigit = true := by
  obtain ⟨-, -, hlen, hdig⟩ := matchYearAt_some_elim h
  obtain ⟨d, ds, hds⟩ : ∃ d ds, (cs.drop marker.length).take 4 = d :: ds := by
    cases he : (cs.drop marker.length).take 4 with
    | nil => rw [he] at hlen; cases hlen
    | cons d ds => exact ⟨d, ds, rfl⟩
  refine ⟨d, ?_, ?_⟩
  · exact List.drop_subset _ _ (List.take_subset _ _ (hds ▸ List.mem_cons_self d ds))
  · have := List.all_eq_true.mp hdig d (hds ▸ List.mem_cons_self d ds)
    simpa using this

lemma searchYear_some_of_exists {marker : List Char} :
    ∀ {cs : List Char}, (∃ i y, matchYearAt marker (cs.drop i) = some y) →
      ∃ y j, searchYear marker cs = some y ∧ matchYearAt marker (cs.drop j) = some y := by
  intro cs
  induction cs with
  | nil =>
    rintro ⟨i, y, hi⟩
    rw [List.drop_nil] at hi
    exact ⟨y, 0, hi, hi⟩
  | cons c t ih =>
    rintro ⟨i, y, hi⟩
    cases h0 : matchYearAt marker (c :: t) with
    | some y0 =>
      refine ⟨y0, 0, ?_, h0⟩
      rw [searchYear, h0]
    | none =>
      cases i with
      | zero =>
        rw [List.drop_zero] at hi
        rw [h0] at hi
        cases hi
      | succ j =>
        obtain ⟨y1, k, hs, hm⟩ := ih ⟨j, y, by rw [← List.drop_succ_cons]; exact hi⟩
        refine ⟨y1, k + 1, ?_, by rw [List.drop_succ_cons]; exact hm⟩
        rw [searchYear, h0]
        exact hs

lemma searchYear_none_of_noDigit {marker : List Char} :
    ∀ {cs : List Char}, (∀ c ∈ cs, c.isDigit = false) → searchYear marker cs = none := by
  intro cs
  induction cs with
  | nil =>
    intro _
    cases h0 : matchYearAt marker [] with
    | some y =>
      obtain ⟨c, hc, -⟩ := matchYearAt_digit h0
      cases hc
    | none => rw [searchYear, h0]
  | cons c t ih =>
    intro h
    cases h0 : matchYearAt marker (c :: t) with
    | some y =>
      obtain ⟨x, hx, hdx⟩ := matchYearAt_digit h0
      rw [h x hx] at hdx
      cases hdx
    | none =>
      rw [searchYear, h0]
      exact ih (fun x hx => h x (List.mem_cons_of_mem c hx))

lemma matchYearAt_extend (ex : List Char) {cs : List Char} {y : List Char}
    (h : matchYearAt (ex ++ fyMarker) cs = some y) :
    matchYearAt fyMarker (cs.drop ex.length) = some y := by
  obtain ⟨hp, hy, hlen, hdig⟩ := matchYearAt_some_elim h
  obtain ⟨u, hu⟩ : (ex ++ fyMarker) <+: cs := List.isPrefixOf_iff_prefix.mp hp
  have hrest2 : cs.drop (ex ++ fyMarker).length = u := by
    rw [← hu, List.drop_left]
  have hcs : cs = ex ++ (fyMarker ++ u) := by
    rw [← hu, List.append_assoc]
  have hdrop : cs.drop ex.length = fyMarker ++ u := by
    rw [hcs, List.drop_left]
  rw [hrest2] at hy hlen hdig
  rw [hdrop]
  have hp2 : fyMarker.isPrefixOf (fyMarker ++ u) = true :=
    List.isPrefixOf_iff_prefix.mpr ⟨u, rfl⟩
  have hu2 : (fyMarker ++ u).drop fyMarker.length = u := List.drop_left _ _
  unfold matchYearAt
  rw [if_pos hp2, hu2, if_pos ⟨hlen, hdig⟩, hy]

/-! ## Claim C4 -/

/-- C4: the year patterns apply in a fixed order with the marker-carrying
patterns before the bare four-digit fallback and the first match winning;
whenever the context reference contains an occurrence of a recognized
marker pattern (FY, PFY, BPFY or CFY followed by four digits), the result
is the four-digit group of such an occurrence, and a context reference
containing no digit yields "N/A". -/
theorem extract_year_pattern_order_correct (context_ref : String) :
    ((∃ marker ∈ [fyMarker, pfyMarker, bpfyMarker, cfyMarker], ∃ i y,
        matchYearAt marker (context_ref.data.drop i) = some y) →
      ∃ y, extract_year_from_context context_ref = String.mk y ∧
        y.length = 4 ∧ y.all Char.isDigit = true ∧
        ∃ marker ∈ [fyMarker, pfyMarker, bpfyMarker, cfyMarker], ∃ i,
          matchYearAt marker (context_ref.data.drop i) = some y) ∧
    ((∀ c ∈ context_ref.data, c.isDigit = false) →
      extract_year_from_context context_ref = "N/A") := by
  constructor
  · rintro ⟨marker, hmem, i, y, hi⟩
    have hFY : ∃ i y, matchYearAt fyMarker (context_ref.data.drop i) = some y := by
      rcases List.mem_cons.mp hmem with rfl | hmem1
      · exact ⟨i, y, hi⟩
      rcases List.mem_cons.mp hmem1 with rfl | hmem2
      · refine ⟨i + 1, y, ?_⟩
        have := matchYearAt_extend ['P'] hi
        rw [List.drop_drop] at this
        exact this
      rcases List.mem_cons.mp hmem2 with rfl | hmem3
      · refine ⟨i + 2, y, ?_⟩
        have := matchYearAt_extend ['B', 'P'] hi
        rw [List.drop_drop] at this
        exact this
      rcases List.mem_cons.mp hmem3 with rfl | hmem4
      · refine ⟨i + 1, y, ?_⟩
        have := matchYearAt_extend ['C'] hi
        rw [List.drop_drop] at this
        exact this
      cases hmem4
    obtain ⟨y0, j, hs, hm⟩ := searchYear_some_of_exists hFY
    obtain ⟨-, hy0, hlen, hdig⟩ := matchYearAt_some_elim hm
    refine ⟨y0, ?_, ?_, ?_, fyMarker, List.mem_cons_self _ _, j, hm⟩
    · rw [extract_year_from_context, hs]
    · rw [hy0]; exact hlen
    · rw [hy0]; exact hdig
  · intro h
    rw [extract_year_from_context]
    rw [searchYear_none_of_noDigit h, searchYear_none_of_noDigit h,
      searchYear_none_of_noDigit h, searchYear_none_of_noDigit h,
      searchYear_none_of_noDigit h]

/-- Witness for C4: a marker occurrence yields its four-digit group, and
a digit-free context reference yields "N/A". -/
theorem extract_year_pattern_order_witness :
    (∃ y, extract_year_from_context "PFY2023e" = String.mk y ∧
        y.length = 4 ∧ y.all Char.isDigit = true ∧
        ∃ marker ∈ [fyMarker, pfyMarker, bpfyMarker, cfyMarker], ∃ i,
          matchYearAt marker (("PFY2023e" : String).data.drop i) = some y) ∧
    extract_year_from_context "abc" = "N/A" :=
  ⟨(extract_year_pattern_order_correct "PFY2023e").1
      ⟨pfyMarker, by decide, 0, ['2', '0', '2', '3'], by decide⟩,
    (extract_year_pattern_order_correct "abc").2 (by decide)⟩

/-! ## Claim C6 -/

lemma pyStrip_of_branch (s : String) : (if s ≠ "" then pyStrip s else "") = pyStrip s := by
  by_cases h : s = ""
  · rw [if_neg (by simp [h]), h]
    rfl
  · rw [if_pos h]

lemma extractFromElem_eq_some {e : XElem} {fact : RawFact} :
    extractFromElem e = some fact ↔
      strContains e.contextRef "SeparateMember" = true ∧
      (pyStrip e.text ≠ "" ∧ e.contextRef ≠ "") ∧
      fact = ⟨localNameOf e.name, pyStrip e.text, e.contextRef, e.unitRef, e.decimals⟩ := by
  simp only [extractFromElem, pyStrip_of_branch]
  split_ifs with h1 h2
  · simp [h1]
  · have h1t : strContains e.contextRef "SeparateMember" = true := by
      revert h1
      cases strContains e.contextRef "SeparateMember" <;> simp
    simp [h1t, h2, eq_comm]
  · have h1t : strContains e.contextRef "SeparateMember" = true := by
      revert h1
      cases strContains e.contextRef "SeparateMember" <;> simp
    simp [h1t, h2]

/-- C6: a fact is produced by get_xbrl_tags exactly for the elements
whose qualified name is on the allow-list, whose context reference
contains the SeparateMember marker and whose stripped text and context
reference are nonempty; the produced record carries the bare local name,
the stripped text, and the context, unit and decimals attributes. -/
theorem get_xbrl_tags_membership_correct (doc : List XElem) (fact : RawFact) :
    fact ∈ get_xbrl_tags doc ↔
      ∃ e ∈ doc, e.name ∈ allowed_tags ∧
        strContains e.contextRef "SeparateMember" = true ∧
        (pyStrip e.text ≠ "" ∧ e.contextRef ≠ "") ∧
        fact = ⟨localNameOf e.name, pyStrip e.text, e.contextRef, e.unitRef, e.decimals⟩ := by
  rw [get_xbrl_tags]
  simp only [List.mem_flatMap, List.mem_filterMap, List.mem_filter,
    decide_eq_true_eq, extractFromElem_eq_some]
  constructor
  · rintro ⟨tag_name, htag, e, ⟨hed, hname⟩, hsep, hval, hfact⟩
    exact ⟨e, hed, hname ▸ htag, hsep, hval, hfact⟩
  · rintro ⟨e, hed, hname, hsep, hval, hfact⟩
    exact ⟨e.name, hname, e, ⟨hed, rfl⟩, hsep, hval, hfact⟩

/-! ## Claim C7 -/

lemma chooseCorpDir_eq_none {corp : String} {dirs : List FilingDir}
    (h : chooseCorpDir corp dirs = none) : dirs = [] := by
  rw [chooseCorpDir] at h
  cases h1 : dirs.find? (fun d => strStartsWith d.name corp) with
  | some d => rw [h1] at h; cases h
  | none =>
    rw [h1] at h
    cases h2 : dirs.find? (fun d => strContains d.name corp) with
    | some d => rw [h2] at h; cases h
    | none =>
      rw [h2] at h
      exact List.getLast?_eq_none_iff.mp h

lemma chooseCorpDir_mem {corp : String} {dirs : List FilingDir} {d : FilingDir}
    (h : chooseCorpDir corp dirs = some d) : d ∈ dirs := by
  rw [chooseCorpDir] at h
  cases h1 : dirs.find? (fun x => strStartsWith x.name corp) with
  | some d1 =>
    rw [h1] at h
    exact (Option.some.inj h) ▸ List.mem_of_find?_eq_some h1
  | none =>
    rw [h1] at h
    cases h2 : dirs.find? (fun x => strContains x.name corp) with
    | some d2 =>
      rw [h2] at h
      exact (Option.some.inj h) ▸ List.mem_of_find?_eq_some h2
    | none =>
      rw [h2] at h
      have hd : d ∈ dirs.getLast? := Option.mem_def.mpr h
      obtain ⟨hne, heq⟩ := List.mem_getLast?_eq_getLast hd
      rw [heq]
      exact List.getLast_mem hne

/-- C7: the locator tries a prefix-matching directory first, then a
substring-matching one, then falls back to the last listed directory, and
the result is a NotFound error exactly when the root has no subdirectory
or the chosen directory holds no file with the .xbrl extension. -/
theorem find_xbrl_files_selection_correct (corp : String) (dirs : List FilingDir) :
    ((∃ err, find_xbrl_files corp dirs = Except.error err) ↔
      dirs = [] ∨ ∃ d, chooseCorpDir corp dirs = some d ∧
        ∀ f ∈ d.files, strEndsWith f ".xbrl" = false) ∧
    (dirs = [] → find_xbrl_files corp dirs = Except.error LocateError.dirNotFound) ∧
    (∀ d, chooseCorpDir corp dirs = some d →
      d ∈ dirs ∧
      ((∃ x ∈ dirs, strStartsWith x.name corp = true) → strStartsWith d.name corp = true) ∧
      ((∀ x ∈ dirs, strStartsWith x.name corp = false) →
        (∃ x ∈ dirs, strContains x.name corp = true) → strContains d.name corp = true) ∧
      ((∀ x ∈ dirs, strStartsWith x.name corp = false) →
        (∀ x ∈ dirs, strContains x.name corp = false) → dirs.getLast? = some d) ∧
      ((∀ f ∈ d.files, strEndsWith f ".xbrl" = false) →
        find_xbrl_files corp dirs = Except.error LocateError.xbrlNotFound) ∧
      ((∃ f ∈ d.files, strEndsWith f ".xbrl" = true) →
        ∃ f ∈ d.files, strEndsWith f ".xbrl" = true ∧
          find_xbrl_files corp dirs = Except.ok (d.name, f))) ∧
    (dirs ≠ [] → ∃ d, chooseCorpDir corp dirs = some d) := by
  refine ⟨?_, ?_, ?_, ?_⟩
  · constructor
    · rintro ⟨err, herr⟩
      rw [find_xbrl_files] at herr
      cases hc : chooseCorpDir corp dirs with
      | none => exact Or.inl (chooseCorpDir_eq_none hc)
      | some d =>
        rw [hc] at herr
        dsimp only at herr
        cases hf : d.files.filter (fun f => strEndsWith f ".xbrl") with
        | nil =>
          refine Or.inr ⟨d, rfl, ?_⟩
          intro f hfd
          have := List.filter_eq_nil_iff.mp hf f hfd
          revert this
          cases strEndsWith f ".xbrl" <;> simp
        | cons f fs => rw [hf] at herr; cases herr
    · rintro (rfl | ⟨d, hc, hall⟩)
      · exact ⟨LocateError.dirNotFound, rfl⟩
      · refine ⟨LocateError.xbrlNotFound, ?_⟩
        have hnil : d.files.filter (fun f => strEndsWith f ".xbrl") = [] :=
          List.filter_eq_nil_iff.mpr (fun f hf => by simp [hall f hf])
        rw [find_xbrl_files, hc]
        dsimp only
        rw [hnil]
  · rintro rfl
    rfl
  · intro d hc
    refine ⟨chooseCorpDir_mem hc, ?_, ?_, ?_, ?_, ?_⟩
    · rintro ⟨x, hx, hpx⟩
      cases h1 : dirs.find? (fun y => strStartsWith y.name corp) with
      | none =>
        have := List.find?_eq_none.mp h1 x hx
        rw [hpx] at this
        simp at this
      | some d1 =>
        have hd1 : d1 = d := by
          rw [chooseCorpDir, h1] at hc
          exact Option.some.inj hc
        have := List.find?_some h1
        rw [hd1] at this
        exact this
    · intro hnopre hsub
      have h1 : dirs.find? (fun y => strStartsWith y.name corp) = none :=
        List.find?_eq_none.mpr (fun x hx => by rw [hnopre x hx]; simp)
      obtain ⟨x, hx, hpx⟩ := hsub
      cases h2 : dirs.find? (fun y => strContains y.name corp) with
      | none =>
        have := List.find?_eq_none.mp h2 x hx
        rw [hpx] at this
        simp at this
      | some d2 =>
        have hd2 : d2 = d := by
          rw [chooseCorpDir, h1, h2] at hc
          exact Option.some.inj hc
        have := List.find?_some h2
        rw [hd2] at this
        exact this
    · intro hnopre hnosub
      have h1 : dirs.find? (fun y => strStartsWith y.name corp) = none :=
        List.find?_eq_none.mpr (fun x hx => by rw [hnopre x hx]; simp)
      have h2 : dirs.find? (fun y => strContains y.name corp) = none :=
        List.find?_eq_none.mpr (fun x hx => by rw [hnosub x hx]; simp)
      rw [chooseCorpDir, h1, h2] at hc
      exact hc
    · intro hall
      have hnil : d.files.filter (fun f => strEndsWith f ".xbrl") = [] :=
        List.filter_eq_nil_iff.mpr (fun f hf => by simp [hall f hf])
      rw [find_xbrl_files, hc]
      dsimp only
      rw [hnil]
    · rintro ⟨f, hf, hext⟩
      cases hfl : d.files.filter (fun g => strEndsWith g ".xbrl") with
      | nil =>
        have := List.filter_eq_nil_iff.mp hfl f hf
        rw [hext] at this
        simp at this
      | cons g gs =>
        have hg : g ∈ d.files.filter (fun g => strEndsWith g ".xbrl") := by
          rw [hfl]
          exact List.mem_cons_self g gs
        refine ⟨g, (List.mem_filter.mp hg).1, (List.mem_filter.mp hg).2, ?_⟩
        rw [find_xbrl_files, hc]
        dsimp only
        rw [hfl]
  · intro hne
    cases hc : chooseCorpDir corp dirs with
    | none => exact absurd (chooseCorpDir_eq_none hc) hne
    | some d => exact ⟨d, rfl⟩

/-- Witness for C7: the empty root fails with NotFound, a prefix match is
selected, and a directory without an instance document fails with
NotFound. -/
theorem find_xbrl_files_selection_witness :
    find_xbrl_files "123" ([] : List FilingDir) = Except.error LocateError.dirNotFound ∧
    strStartsWith "12345" "123" = true ∧
    find_xbrl_files "777" [⟨"888", ["a.txt"]⟩] = Except.error LocateError.xbrlNotFound :=
  ⟨(find_xbrl_files_selection_correct "123" []).2.1 rfl,
   ((find_xbrl_files_selection_correct "123" [⟨"12345", ["b.xbrl"]⟩]).2.2.1
       ⟨"12345", ["b.xbrl"]⟩ rfl).2.1 ⟨⟨"12345", ["b.xbrl"]⟩, by decide, by decide⟩,
   ((find_xbrl_files_selection_correct "777" [⟨"888", ["a.txt"]⟩]).2.2.1
       ⟨"888", ["a.txt"]⟩ rfl).2.2.2.2.1 (by decide)⟩

/-! ## Lemmas about the write paths and the per-record loop -/

lemma upsertRows_key_mem (r : ProcessedRecord) (nid : Nat) :
    ∀ {rows : List Row}, recKey r ∈ rows.map rowKey →
      (upsertRows r nid rows).1 = false ∧
      (upsertRows r nid rows).2.1.map rowKey = rows.map rowKey := by
  intro rows
  induction rows with
  | nil => intro h; simp at h
  | cons row rest ih =>
    intro h
    by_cases hk : rowKey row = recKey r
    · rw [upsertRows, if_pos hk]
      exact ⟨rfl, by simp [rowKey]⟩
    · rw [upsertRows, if_neg hk]
      have hmem : recKey r ∈ rest.map rowKey := by
        rw [List.map_cons] at h
        rcases List.mem_cons.mp h with heq | hmem
        · exact absurd heq.symm hk
        · exact hmem
      obtain ⟨hf, hmap⟩ := ih hmem
      exact ⟨hf, by simp [hmap]⟩

lemma upsertRows_key_not_mem (r : ProcessedRecord) (nid : Nat) :
    ∀ {rows : List Row}, recKey r ∉ rows.map rowKey →
      (upsertRows r nid rows).1 = true ∧
      (upsertRows r nid rows).2.1.map rowKey = rows.map rowKey ++ [recKey r] := by
  intro rows
  induction rows with
  | nil => intro _; exact ⟨rfl, by simp [upsertRows, newRow, rowKey, recKey]⟩
  | cons row rest ih =>
    intro h
    have hk : rowKey row ≠ recKey r := by
      intro he
      exact h (by simp [← he])
    rw [upsertRows, if_neg hk]
    have hrest : recKey r ∉ rest.map rowKey := by
      intro hmem
      exact h (by simp [hmem])
    obtain ⟨hf, hmap⟩ := ih hrest
    exact ⟨hf, by simp [hmap]⟩

lemma updateById_map_rowKey (id : Nat) (r : ProcessedRecord) (rows : List Row) :
    (updateById id r rows).map rowKey = rows.map rowKey := by
  induction rows with
  | nil => rfl
  | cons row rest ih =>
    simp only [updateById, List.map_cons] at ih ⊢
    rw [ih]
    congr 1
    split <;> rfl

lemma stepFn_mem (b : Bool) (r : ProcessedRecord) (db : DbState)
    (h : recKey r ∈ db.rows.map rowKey) :
    (stepFn b r db).1 = false ∧
    (stepFn b r db).2.rows.map rowKey = db.rows.map rowKey ∧
    (stepFn b r db).2.tableExists = db.tableExists := by
  cases b with
  | true =>
    obtain ⟨hf, hmap⟩ := upsertRows_key_mem r db.nextId h
    exact ⟨hf, hmap, rfl⟩
  | false =>
    obtain ⟨row, hrow, hkey⟩ := List.mem_map.mp h
    have hsome : (db.rows.find? (fun x => decide (rowKey x = recKey r))).isSome = true :=
      List.find?_isSome.mpr ⟨row, hrow, by simp [hkey]⟩
    obtain ⟨existing, hfind⟩ := Option.isSome_iff_exists.mp hsome
    rw [stepFn]
    simp only [Bool.false_eq_true, if_false]
    rw [checkThenUpsert, hfind]
    exact ⟨rfl, updateById_map_rowKey existing.id r db.rows, rfl⟩

lemma stepFn_not_mem (b : Bool) (r : ProcessedRecord) (db : DbState)
    (h : recKey r ∉ db.rows.map rowKey) :
    (stepFn b r db).1 = true ∧
    (stepFn b r db).2.rows.map rowKey = db.rows.map rowKey ++ [recKey r] ∧
    (stepFn b r db).2.tableExists = db.tableExists := by
  cases b with
  | true =>
    obtain ⟨hf, hmap⟩ := upsertRows_key_not_mem r db.nextId h
    exact ⟨hf, hmap, rfl⟩
  | false =>
    have hnone : db.rows.find? (fun x => decide (rowKey x = recKey r)) = none := by
      apply List.find?_eq_none.mpr
      intro x hx
      simp only [decide_eq_true_eq]
      intro hk
      exact h (hk ▸ List.mem_map_of_mem rowKey hx)
    rw [stepFn]
    simp only [Bool.false_eq_true, if_false]
    rw [checkThenUpsert, hnone]
    refine ⟨rfl, ?_, rfl⟩
    simp [newRow, rowKey, recKey]

lemma runLoop_cons_some (b : Bool) (oracle : Oracle) (r : ProcessedRecord)
    (rest : List ProcessedRecord) (idx ins upd : Nat) (db : DbState) (ops : List DbOp)
    {e : DbErr} (h : oracle.recFail idx = some e) :
    runLoop b oracle (r :: rest) idx ins upd db ops = ⟨some e, ins, upd, db, ops⟩ := by
  rw [runLoop, h]

lemma runLoop_cons_none (b : Bool) (oracle : Oracle) (r : ProcessedRecord)
    (rest : List ProcessedRecord) (idx ins upd : Nat) (db : DbState) (ops : List DbOp)
    (h : oracle.recFail idx = none) :
    runLoop b oracle (r :: rest) idx ins upd db ops =
      (if (stepFn b r db).1 then
        runLoop b oracle rest (idx + 1) (ins + 1) upd (stepFn b r db).2
          (ops ++ (if b then [DbOp.upsertRecord]
            else if (stepFn b r db).1 then [DbOp.checkRecord, DbOp.insertRecord]
            else [DbOp.checkRecord, DbOp.updateRecord]))
      else
        runLoop b oracle rest (idx + 1) ins (upd + 1) (stepFn b r db).2
          (ops ++ (if b then [DbOp.upsertRecord]
            else if (stepFn b r db).1 then [DbOp.checkRecord, DbOp.insertRecord]
            else [DbOp.checkRecord, DbOp.updateRecord]))) := by
  rw [runLoop, h]

lemma runLoop_tableExists (b : Bool) (oracle : Oracle) :
    ∀ (recs : List ProcessedRecord) (idx ins upd : Nat) (db : DbState) (ops : List DbOp),
      (runLoop b oracle recs idx ins upd db ops).db.tableExists = db.tableExists := by
  intro recs
  induction recs with
  | nil => intro idx ins upd db ops; rfl
  | cons r rest ih =>
    intro idx ins upd db ops
    cases hrf : oracle.recFail idx with
    | some e => rw [runLoop_cons_some b oracle r rest idx ins upd db ops hrf]
    | none =>
      rw [runLoop_cons_none b oracle r rest idx ins upd db ops hrf]
      by_cases hk : recKey r ∈ db.rows.map rowKey
      · obtain ⟨h1, -, h3⟩ := stepFn_mem b r db hk
        rw [h1, if_neg Bool.false_ne_true]
        rw [ih]
        exact h3
      · obtain ⟨h1, -, h3⟩ := stepFn_not_mem b r db hk
        rw [h1, if_pos rfl]
        rw [ih]
        exact h3

lemma runLoop_keys_mono (b : Bool) (oracle : Oracle) :
    ∀ (recs : List ProcessedRecord) (idx ins upd : Nat) (db : DbState) (ops : List DbOp)
      (k : String × String × Nat), k ∈ db.rows.map rowKey →
      k ∈ (runLoop b oracle recs idx ins upd db ops).db.rows.map rowKey := by
  intro recs
  induction recs with
  | nil => intro idx ins upd db ops k hk; exact hk
  | cons r rest ih =>
    intro idx ins upd db ops k hk
    cases hrf : oracle.recFail idx with
    | some e =>
      rw [runLoop_cons_some b oracle r rest idx ins upd db ops hrf]
      exact hk
    | none =>
      rw [runLoop_cons_none b oracle r rest idx ins upd db ops hrf]
      by_cases hm : recKey r ∈ db.rows.map rowKey
      · obtain ⟨h1, h2, -⟩ := stepFn_mem b r db hm
        rw [h1, if_neg Bool.false_ne_true]
        exact ih _ _ _ _ _ k (h2 ▸ hk)
      · obtain ⟨h1, h2, -⟩ := stepFn_not_mem b r db hm
        rw [h1, if_pos rfl]
        exact ih _ _ _ _ _ k (by rw [h2]; exact List.mem_append_left _ hk)

lemma runLoop_allKeys (b : Bool) (oracle : Oracle) :
    ∀ (recs : List ProcessedRecord) (idx ins upd : Nat) (db : DbState) (ops : List DbOp),
      (runLoop b oracle recs idx ins upd db ops).err = none →
      ∀ r ∈ recs, recKey r ∈ (runLoop b oracle recs idx ins upd db ops).db.rows.map rowKey := by
  intro recs
  induction recs with
  | nil => intro idx ins upd db ops _ r hr; simp at hr
  | cons r0 rest ih =>
    intro idx ins upd db ops herr r hr
    cases hrf : oracle.recFail idx with
    | some e =>
      rw [runLoop_cons_some b oracle r0 rest idx ins upd db ops hrf] at herr
      cases herr
    | none =>
      rw [runLoop_cons_none b oracle r0 rest idx ins upd db ops hrf] at herr ⊢
      have hstep : recKey r0 ∈ (stepFn b r0 db).2.rows.map rowKey := by
        by_cases hm : recKey r0 ∈ db.rows.map rowKey
        · rw [(stepFn_mem b r0 db hm).2.1]; exact hm
        · rw [(stepFn_not_mem b r0 db hm).2.1]
          exact List.mem_append_right _ (List.mem_singleton.mpr rfl)
      rcases List.mem_cons.mp hr with rfl | hr1
      · by_cases hm : recKey r ∈ db.rows.map rowKey
        · rw [(stepFn_mem b r db hm).1, if_neg Bool.false_ne_true] at herr ⊢
          exact runLoop_keys_mono b oracle rest _ _ _ _ _ _ hstep
        · rw [(stepFn_not_mem b r db hm).1, if_pos rfl] at herr ⊢
          exact runLoop_keys_mono b oracle rest _ _ _ _ _ _ hstep
      · by_cases hm : recKey r0 ∈ db.rows.map rowKey
        · rw [(stepFn_mem b r0 db hm).1, if_neg Bool.false_ne_true] at herr ⊢
          exact ih _ _ _ _ _ herr r hr1
        · rw [(stepFn_not_mem b r0 db hm).1, if_pos rfl] at herr ⊢
          exact ih _ _ _ _ _ herr r hr1

lemma runLoop_nodup (b : Bool) (oracle : Oracle) :
    ∀ (recs : List ProcessedRecord) (idx ins upd : Nat) (db : DbState) (ops : List DbOp),
      (db.rows.map rowKey).Nodup →
      ((runLoop b oracle recs idx ins upd db ops).db.rows.map rowKey).Nodup := by
  intro recs
  induction recs with
  | nil => intro idx ins upd db ops h; exact h
  | cons r rest ih =>
    intro idx ins upd db ops h
    cases hrf : oracle.recFail idx with
    | some e =>
      rw [runLoop_cons_some b oracle r rest idx ins upd db ops hrf]
      exact h
    | none =>
      rw [runLoop_cons_none b oracle r rest idx ins upd db ops hrf]
      by_cases hm : recKey r ∈ db.rows.map rowKey
      · obtain ⟨h1, h2, -⟩ := stepFn_mem b r db hm
        rw [h1, if_neg Bool.false_ne_true]
        exact ih _ _ _ _ _ (h2 ▸ h)
      · obtain ⟨h1, h2, -⟩ := stepFn_not_mem b r db hm
        rw [h1, if_pos rfl]
        apply ih
        rw [h2]
        simp only [List.nodup_append, List.nodup_cons, List.not_mem_nil, not_false_iff,
          List.nodup_nil, and_true, true_and]
        exact ⟨h, by simpa [List.disjoint_singleton] using hm⟩

lemma runLoop_present (b : Bool) (oracle : Oracle) :
    ∀ (recs : List ProcessedRecord) (idx ins upd : Nat) (db : DbState) (ops : List DbOp),
      (∀ r ∈ recs, recKey r ∈ db.rows.map rowKey) →
      (runLoop b oracle recs idx ins upd db ops).inserted = ins ∧
      (runLoop b oracle recs idx ins upd db ops).db.rows.map rowKey = db.rows.map rowKey ∧
      ((runLoop b oracle recs idx ins upd db ops).err = none →
        (runLoop b oracle recs idx ins upd db ops).updated = upd + recs.length) := by
  intro recs
  induction recs with
  | nil => intro idx ins upd db ops _; exact ⟨rfl, rfl, fun _ => rfl⟩
  | cons r rest ih =>
    intro idx ins upd db ops hall
    cases hrf : oracle.recFail idx with
    | some e =>
      rw [runLoop_cons_some b oracle r rest idx ins upd db ops hrf]
      exact ⟨rfl, rfl, fun h => by cases h⟩
    | none =>
      rw [runLoop_cons_none b oracle r rest idx ins upd db ops hrf]
      have hm : recKey r ∈ db.rows.map rowKey := hall r (List.mem_cons_self r rest)
      obtain ⟨h1, h2, -⟩ := stepFn_mem b r db hm
      rw [h1, if_neg Bool.false_ne_true]
      have hall2 : ∀ x ∈ rest, recKey x ∈ (stepFn b r db).2.rows.map rowKey := by
        intro x hx
        rw [h2]
        exact hall x (List.mem_cons_of_mem r hx)
      obtain ⟨hi, hmapr, hu⟩ := ih (idx + 1) ins (upd + 1) (stepFn b r db).2 _ hall2
      refine ⟨hi, hmapr.trans h2, fun he => ?_⟩
      rw [hu he]
      simp only [List.length_cons]
      omega

lemma runLoop_counts (b : Bool) (oracle : Oracle) (e : DbErr) :
    ∀ (recs : List ProcessedRecord) (k idx ins upd : Nat) (db : DbState) (ops : List DbOp),
      (∀ j, j < k → oracle.recFail (idx + j) = none) →
      oracle.recFail (idx + k) = some e →
      k < recs.length →
      (runLoop b oracle recs idx ins upd db ops).err = some e ∧
      (runLoop b oracle recs idx ins upd db ops).inserted +
        (runLoop b oracle recs idx ins upd db ops).updated = ins + upd + k := by
  intro recs
  induction recs with
  | nil =>
    intro k idx ins upd db ops _ _ hk
    simp at hk
  | cons r rest ih =>
    intro k idx ins upd db ops hbefore hfail hk
    cases k with
    | zero =>
      rw [Nat.add_zero] at hfail
      rw [runLoop_cons_some b oracle r rest idx ins upd db ops hfail]
      exact ⟨rfl, rfl⟩
    | succ k1 =>
      have h0 : oracle.recFail idx = none := by
        have := hbefore 0 (Nat.succ_pos k1)
        rwa [Nat.add_zero] at this
      rw [runLoop_cons_none b oracle r rest idx ins upd db ops h0]
      have hbefore1 : ∀ j, j < k1 → oracle.recFail (idx + 1 + j) = none := by
        intro j hj
        have := hbefore (j + 1) (by omega)
        rwa [show idx + (j + 1) = idx + 1 + j by omega] at this
      have hfail1 : oracle.recFail (idx + 1 + k1) = some e := by
        rwa [show idx + (k1 + 1) = idx + 1 + k1 by omega] at hfail
      have hk1 : k1 < rest.length := by
        simp only [List.length_cons] at hk
        omega
      by_cases hs : (stepFn b r db).1 = true
      · rw [hs, if_pos rfl]
        obtain ⟨he, hc⟩ := ih k1 (idx + 1) (ins + 1) upd (stepFn b r db).2 _ hbefore1 hfail1 hk1
        exact ⟨he, by omega⟩
      · rw [Bool.not_eq_true] at hs
        rw [hs, if_neg Bool.false_ne_true]
        obtain ⟨he, hc⟩ := ih k1 (idx + 1) ins (upd + 1) (stepFn b r db).2 _ hbefore1 hfail1 hk1
        exact ⟨he, by omega⟩

lemma ensure_fields (oracle : Oracle) (db : DbState) :
    (ensure_unique_constraint oracle db).2.rows = db.rows ∧
    (ensure_unique_constraint oracle db).2.tableExists = db.tableExists := by
  rw [ensure_unique_constraint]
  split_ifs <;> exact ⟨rfl, rfl⟩

lemma insert_bulk_run (records : List InputRecord) (oracle : Oracle) (db : DbState)
    (h1 : records ≠ []) (h2 : validateRecords (preprocessRecords records) ≠ [])
    (h3 : db.tableExists = true) :
    insert_dsd_source_bulk records oracle db =
      (match (runLoop (ensure_unique_constraint oracle db).1 oracle
          (validateRecords (preprocessRecords records)) 0 0 0
          (ensure_unique_constraint oracle db).2
          [DbOp.ensureConstraint, DbOp.countRows]).err with
        | some e =>
          (⟨false,
            (runLoop (ensure_unique_constraint oracle db).1 oracle
              (validateRecords (preprocessRecords records)) 0 0 0
              (ensure_unique_constraint oracle db).2
              [DbOp.ensureConstraint, DbOp.countRows]).inserted,
            (runLoop (ensure_unique_constraint oracle db).1 oracle
              (validateRecords (preprocessRecords records)) 0 0 0
              (ensure_unique_constraint oracle db).2
              [DbOp.ensureConstraint, DbOp.countRows]).updated,
            some (classifyErr e)⟩, db,
            (runLoop (ensure_unique_constraint oracle db).1 oracle
              (validateRecords (preprocessRecords records)) 0 0 0
              (ensure_unique_constraint oracle db).2
              [DbOp.ensureConstraint, DbOp.countRows]).ops)
        | none =>
          (⟨true,
            (runLoop (ensure_unique_constraint oracle db).1 oracle
              (validateRecords (preprocessRecords records)) 0 0 0
              (ensure_unique_constraint oracle db).2
              [DbOp.ensureConstraint, DbOp.countRows]).inserted,
            (runLoop (ensure_unique_constraint oracle db).1 oracle
              (validateRecords (preprocessRecords records)) 0 0 0
              (ensure_unique_constraint oracle db).2
              [DbOp.ensureConstraint, DbOp.countRows]).updated,
            none⟩,
            (runLoop (ensure_unique_constraint oracle db).1 oracle
              (validateRecords (preprocessRecords records)) 0 0 0
              (ensure_unique_constraint oracle db).2
              [DbOp.ensureConstraint, DbOp.countRows]).db,
            (runLoop (ensure_unique_constraint oracle db).1 oracle
              (validateRecords (preprocessRecords records)) 0 0 0
              (ensure_unique_constraint oracle db).2
              [DbOp.ensureConstraint, DbOp.countRows]).ops ++ [DbOp.countRows])) := by
  rw [insert_dsd_source_bulk, if_neg h1]
  dsimp only
  rw [if_neg h2]
  rw [if_neg (by rw [h3]; simp)]

/-! ## Claim C1 -/

/-- C1: assuming at most one stored row per natural key before the call,
any successful insert_dsd_source_bulk call leaves at most one stored row
per natural key, on the constraint-backed path and on the fallback path
alike (the oracle covers both through the constraint setup outcome). -/
theorem insert_preserves_natural_key_uniqueness (records : List InputRecord) (oracle : Oracle)
    (db : DbState) (hinv : (db.rows.map rowKey).Nodup)
    (hsucc : (insert_dsd_source_bulk records oracle db).1.success = true) :
    (((insert_dsd_source_bulk records oracle db).2.1).rows.map rowKey).Nodup := by
  by_cases h1 : records = []
  · subst h1
    rw [insert_dsd_source_bulk, if_pos rfl]
    exact hinv
  by_cases h2 : validateRecords (preprocessRecords records) = []
  · rw [insert_dsd_source_bulk, if_neg h1]
    dsimp only
    rw [if_pos h2]
    exact hinv
  by_cases h3 : db.tableExists = true
  · rw [insert_bulk_run records oracle db h1 h2 h3]
    cases ho : (runLoop (ensure_unique_constraint oracle db).1 oracle
        (validateRecords (preprocessRecords records)) 0 0 0
        (ensure_unique_constraint oracle db).2 [DbOp.ensureConstraint, DbOp.countRows]).err with
    | some e =>
      dsimp only
      exact hinv
    | none =>
      dsimp only
      apply runLoop_nodup
      rw [(ensure_fields oracle db).1]
      exact hinv
  · have h3f : db.tableExists = false := by
      revert h3
      cases db.tableExists <;> simp
    rw [insert_dsd_source_bulk, if_neg h1]
    dsimp only
    rw [if_neg h2, if_pos h3f]
    exact hinv

/-- Witness for C1: a concrete successful call on a one-record batch over
an empty store preserves the key uniqueness invariant. -/
theorem insert_preserves_natural_key_uniqueness_witness :
    (insert_dsd_source_bulk [⟨"C1", "자산총계", "100", "2023", "KRW"⟩]
        quietOracle emptyDb).1.success = true ∧
    (((insert_dsd_source_bulk [⟨"C1", "자산총계", "100", "2023", "KRW"⟩]
        quietOracle emptyDb).2.1).rows.map rowKey).Nodup :=
  ⟨by decide,
   insert_preserves_natural_key_uniqueness _ quietOracle emptyDb (by decide) (by decide)⟩

/-! ## Claim C2 -/

lemma insert_bulk_success_facts (records : List InputRecord) (oracle : Oracle) (db : DbState)
    (h1 : records ≠ []) (h2 : validateRecords (preprocessRecords records) ≠ [])
    (h3 : db.tableExists = true)
    (hsucc : (insert_dsd_source_bulk records oracle db).1.success = true) :
    (insert_dsd_source_bulk records oracle db).2.1.tableExists = true ∧
    ∀ r ∈ validateRecords (preprocessRecords records),
      recKey r ∈ (insert_dsd_source_bulk records oracle db).2.1.rows.map rowKey := by
  rw [insert_bulk_run records oracle db h1 h2 h3] at hsucc ⊢
  cases ho : (runLoop (ensure_unique_constraint oracle db).1 oracle
      (validateRecords (preprocessRecords records)) 0 0 0
      (ensure_unique_constraint oracle db).2 [DbOp.ensureConstraint, DbOp.countRows]).err with
  | some e =>
    rw [ho] at hsucc
    exact (Bool.false_ne_true hsucc).elim
  | none =>
    dsimp only
    constructor
    · rw [runLoop_tableExists, (ensure_fields oracle db).2]
      exact h3
    · exact runLoop_allKeys _ oracle _ 0 0 0 _ _ ho

lemma insert_bulk_replay_facts (records : List InputRecord) (oracle : Oracle) (db1 : DbState)
    (h1 : records ≠ []) (h2 : validateRecords (preprocessRecords records) ≠ [])
    (h3 : db1.tableExists = true)
    (hall : ∀ r ∈ validateRecords (preprocessRecords records),
      recKey r ∈ db1.rows.map rowKey) :
    (insert_dsd_source_bulk records oracle db1).1.inserted = 0 ∧
    (insert_dsd_source_bulk records oracle db1).2.1.rows.map rowKey = db1.rows.map rowKey ∧
    ((insert_dsd_source_bulk records oracle db1).1.success = true →
      (insert_dsd_source_bulk records oracle db1).1.updated =
        (validateRecords (preprocessRecords records)).length) := by
  rw [insert_bulk_run records oracle db1 h1 h2 h3]
  have hall2 : ∀ r ∈ validateRecords (preprocessRecords records),
      recKey r ∈ (ensure_unique_constraint oracle db1).2.rows.map rowKey := by
    intro r hr
    rw [(ensure_fields oracle db1).1]
    exact hall r hr
  have hp := runLoop_present (ensure_unique_constraint oracle db1).1 oracle
    (validateRecords (preprocessRecords records)) 0 0 0
    (ensure_unique_constraint oracle db1).2 [DbOp.ensureConstraint, DbOp.countRows] hall2
  cases ho : (runLoop (ensure_unique_constraint oracle db1).1 oracle
      (validateRecords (preprocessRecords records)) 0 0 0
      (ensure_unique_constraint oracle db1).2 [DbOp.ensureConstraint, DbOp.countRows]).err with
  | some e =>
    dsimp only
    exact ⟨hp.1, rfl, fun hs => (Bool.false_ne_true hs).elim⟩
  | none =>
    dsimp only
    refine ⟨hp.1, ?_, fun _ => ?_⟩
    · rw [hp.2.1, (ensure_fields oracle db1).1]
    · rw [hp.2.2 ho]
      exact Nat.zero_add _

/-- C2: after a successful application of a batch, replaying the same
batch reports zero inserted rows, leaves the multiset of stored natural
keys unchanged, and on a successful replay classifies every valid record
as updated. -/
theorem insert_bulk_idempotent_on_keys (records : List InputRecord) (o1 o2 : Oracle)
    (db : DbState)
    (hsucc : (insert_dsd_source_bulk records o1 db).1.success = true) :
    (insert_dsd_source_bulk records o2
        ((insert_dsd_source_bulk records o1 db).2.1)).1.inserted = 0 ∧
    ((insert_dsd_source_bulk records o2
        ((insert_dsd_source_bulk records o1 db).2.1)).2.1).rows.map rowKey =
      (((insert_dsd_source_bulk records o1 db).2.1).rows.map rowKey) ∧
    ((insert_dsd_source_bulk records o2
        ((insert_dsd_source_bulk records o1 db).2.1)).1.success = true →
      (insert_dsd_source_bulk records o2
          ((insert_dsd_source_bulk records o1 db).2.1)).1.updated =
        (validateRecords (preprocessRecords records)).length) := by
  by_cases h1 : records = []
  · subst h1
    have he : ∀ (o : Oracle) (dbx : DbState),
        insert_dsd_source_bulk [] o dbx = (⟨true, 0, 0, none⟩, dbx, []) := by
      intro o dbx
      rw [insert_dsd_source_bulk, if_pos rfl]
    rw [he o1 db, he o2 db]
    exact ⟨rfl, rfl, fun _ => rfl⟩
  have h2 : validateRecords (preprocessRecords records) ≠ [] := by
    intro h2
    rw [insert_dsd_source_bulk, if_neg h1] at hsucc
    dsimp only at hsucc
    rw [if_pos h2] at hsucc
    exact Bool.false_ne_true hsucc
  have h3 : db.tableExists = true := by
    by_contra h3
    have h3f : db.tableExists = false := by
      revert h3
      cases db.tableExists <;> simp
    rw [insert_dsd_source_bulk, if_neg h1] at hsucc
    dsimp only at hsucc
    rw [if_neg h2, if_pos h3f] at hsucc
    exact Bool.false_ne_true hsucc
  have hf := insert_bulk_success_facts records o1 db h1 h2 h3 hsucc
  exact insert_bulk_replay_facts records o2 _ h1 h2 hf.1 hf.2

/-- Witness for C2 on a concrete batch replayed over an empty store. -/
theorem insert_bulk_idempotent_witness :
    (insert_dsd_source_bulk [⟨"C1", "자산총계", "100", "2023", "KRW"⟩] quietOracle
        ((insert_dsd_source_bulk [⟨"C1", "자산총계", "100", "2023", "KRW"⟩]
          quietOracle emptyDb).2.1)).1.inserted = 0 ∧
    ((insert_dsd_source_bulk [⟨"C1", "자산총계", "100", "2023", "KRW"⟩] quietOracle
        ((insert_dsd_source_bulk [⟨"C1", "자산총계", "100", "2023", "KRW"⟩]
          quietOracle emptyDb).2.1)).2.1).rows.map rowKey =
      (((insert_dsd_source_bulk [⟨"C1", "자산총계", "100", "2023", "KRW"⟩]
          quietOracle emptyDb).2.1).rows.map rowKey) ∧
    ((insert_dsd_source_bulk [⟨"C1", "자산총계", "100", "2023", "KRW"⟩] quietOracle
        ((insert_dsd_source_bulk [⟨"C1", "자산총계", "100", "2023", "KRW"⟩]
          quietOracle emptyDb).2.1)).1.success = true →
      (insert_dsd_source_bulk [⟨"C1", "자산총계", "100", "2023", "KRW"⟩] quietOracle
          ((insert_dsd_source_bulk [⟨"C1", "자산총계", "100", "2023", "KRW"⟩]
            quietOracle emptyDb).2.1)).1.updated =
        (validateRecords (preprocessRecords
          [⟨"C1", "자산총계", "100", "2023", "KRW"⟩])).length) :=
  insert_bulk_idempotent_on_keys _ quietOracle quietOracle emptyDb (by decide)

/-! ## Claim C8 -/

/-- C8: when the oracle raises a database error at the statement for the
k-th valid record (all earlier statements succeeding), the call returns a
structured failure: success is false, the error is classified by the
matching except clause, the partial counts accumulated before the failure
are preserved, and the transaction rollback restores the entry state; the
embedding is a total function, so no exception escapes. -/
theorem insert_bulk_errors_classified (records : List InputRecord) (oracle : Oracle)
    (db : DbState) (e : DbErr) (k : Nat)
    (h1 : records ≠ [])
    (h2 : validateRecords (preprocessRecords records) ≠ [])
    (h3 : db.tableExists = true)
    (hk : k < (validateRecords (preprocessRecords records)).length)
    (hbefore : ∀ j, j < k → oracle.recFail j = none)
    (hfail : oracle.recFail k = some e) :
    (insert_dsd_source_bulk records oracle db).1.success = false ∧
    (insert_dsd_source_bulk records oracle db).1.err = some (classifyErr e) ∧
    (insert_dsd_source_bulk records oracle db).1.inserted +
      (insert_dsd_source_bulk records oracle db).1.updated = k ∧
    (insert_dsd_source_bulk records oracle db).2.1 = db := by
  rw [insert_bulk_run records oracle db h1 h2 h3]
  have hb0 : ∀ j, j < k → oracle.recFail (0 + j) = none := by
    intro j hj
    rw [Nat.zero_add]
    exact hbefore j hj
  have hf0 : oracle.recFail (0 + k) = some e := by
    rw [Nat.zero_add]
    exact hfail
  have hc := runLoop_counts (ensure_unique_constraint oracle db).1 oracle e
    (validateRecords (preprocessRecords records)) k 0 0 0
    (ensure_unique_constraint oracle db).2 [DbOp.ensureConstraint, DbOp.countRows] hb0 hf0 hk
  rw [hc.1]
  dsimp only
  refine ⟨rfl, rfl, ?_, rfl⟩
  have := hc.2
  omega

/-- An oracle that raises a generic database error at the second record. -/
def failAt1Oracle : Oracle :=
  ⟨false, fun n => if n = 1 then some DbErr.postgresError else none⟩

/-- Witness for C8: a two-record batch failing at the second statement
reports a classified failure with one processed record and rolled-back
state. -/
theorem insert_bulk_errors_classified_witness :
    (insert_dsd_source_bulk
        [⟨"C1", "자산총계", "100", "2023", "KRW"⟩, ⟨"C1", "부채총계", "50", "2023", "KRW"⟩]
        failAt1Oracle emptyDb).1.success = false ∧
    (insert_dsd_source_bulk
        [⟨"C1", "자산총계", "100", "2023", "KRW"⟩, ⟨"C1", "부채총계", "50", "2023", "KRW"⟩]
        failAt1Oracle emptyDb).1.err = some (classifyErr DbErr.postgresError) ∧
    (insert_dsd_source_bulk
        [⟨"C1", "자산총계", "100", "2023", "KRW"⟩, ⟨"C1", "부채총계", "50", "2023", "KRW"⟩]
        failAt1Oracle emptyDb).1.inserted +
      (insert_dsd_source_bulk
        [⟨"C1", "자산총계", "100", "2023", "KRW"⟩, ⟨"C1", "부채총계", "50", "2023", "KRW"⟩]
        failAt1Oracle emptyDb).1.updated = 1 ∧
    (insert_dsd_source_bulk
        [⟨"C1", "자산총계", "100", "2023", "KRW"⟩, ⟨"C1", "부채총계", "50", "2023", "KRW"⟩]
        failAt1Oracle emptyDb).2.1 = emptyDb :=
  insert_bulk_errors_classified _ failAt1Oracle emptyDb DbErr.postgresError 1
    (by decide) (by decide) rfl (by decide)
    (fun j hj => by
      have hj0 : j = 0 := by omega
      rw [hj0]
      rfl)
    rfl
